import Mathlib

/-!
# thicket: message framing of `ClientConnection` and the `CommanderPane` widget

A shallow embedding of

* `src/server/ClientConnection.h` (the connection object, its counters and
  accessors); the bodies of `sendMsg` and `handleReadyRead` live in a `.cpp`
  file that is not part of the sources at hand, so these two operations are
  modelled from the specification (sections 3, 4 and 8);
* `src/client/CommanderPane.cpp` / `CommanderPane.h` (constructor zone loop,
  `setDraftQueuedPacks`, the two context-menu handlers).
-/

namespace Thicket

/-! ## Wire bytes and the frame header -/

/-- One byte on the wire. -/
abbrev Byte := Fin 256

/-- Width of the traffic counters (`uint64_t mBytesSent`, `mBytesReceived`). -/
def U64 : Nat := 2 ^ 64

/-- Largest body length a 2-byte header can carry (`quint16`). -/
def maxBody : Nat := 65535

/-- Modelled from the spec: the Frame Header encoder of section 4.1 (its code is
in the absent `ClientConnection.cpp`).  A length in `[0, 65535]` becomes two
bytes in fixed (big-endian) order, as in the scenario `0x00 0x07` for 7;
a length outside the range is rejected. -/
def encodeHeader (n : Nat) : Option (List Byte) :=
  if n ≤ maxBody then some [Fin.ofNat (n / 256), Fin.ofNat (n % 256)] else none

/-- Modelled from the spec: the Frame Header decoder of section 4.1; two bytes
give an integer in `[0, 65535]`.  Any other number of bytes carries no
header and reads as 0. -/
def decodeHeader : List Byte → Nat
  | [b0, b1] => b0.val * 256 + b1.val
  | _ => 0

/-- The frame of a body of admissible length (section 3): the 2-byte header for
its length followed by the body. -/
def frameBytes (body : List Byte) : List Byte :=
  Fin.ofNat (body.length / 256) :: Fin.ofNat (body.length % 256) :: body

/-- The byte buffer obtained by concatenating the frames of `bodies`. -/
def wire : List (List Byte) → List Byte
  | [] => []
  | b :: rest => frameBytes b ++ wire rest

/-! ## The receive reassembler (section 4.2) -/

/-- Modelled from the spec: state of the Receive Reassembler, section 3/4.2.
`headerBuf` holds the header bytes collected so far, so that
`pendingHeaderBytes = headerBuf.length`; `expectedBodyLength` is the decoded
header value, meaningful once two header bytes are collected; `bodyBuf` is
the body collected so far. -/
structure Reassembler where
  headerBuf : List Byte
  expectedBodyLength : Nat
  bodyBuf : List Byte
  deriving DecidableEq, Repr

/-- Number of header bytes already read toward the current frame. -/
def Reassembler.pendingHeaderBytes (r : Reassembler) : Nat := r.headerBuf.length

/-- The reassembler with header and body state cleared (AwaitingHeader, nothing
collected). -/
def Reassembler.clear : Reassembler :=
  { headerBuf := [], expectedBodyLength := 0, bodyBuf := [] }

/-- Modelled from the spec: the state machine of section 4.2, run on one chunk.

* AwaitingHeader (`pendingHeaderBytes < 2`): copy up to the remaining needed
  header bytes out of the chunk; when exactly 2 are collected decode the
  expected body length and go on, in the same call, as AwaitingBody;
* AwaitingBody: collect bytes into the body buffer until its length equals
  the expected length (0 completes at once); on completion emit the body,
  clear header/body state and continue with the bytes still unconsumed.

Every pass of the loop uses one unit of `fuel`. -/
def Reassembler.feedAux : Nat → Reassembler → List Byte → Reassembler × List (List Byte)
  | 0, r, _ => (r, [])
  | fuel + 1, r, bs =>
    if r.headerBuf.length < 2 then
      let k := min (2 - r.headerBuf.length) bs.length
      let hb := r.headerBuf ++ bs.take k
      if hb.length = 2 then
        Reassembler.feedAux fuel
          { headerBuf := hb, expectedBodyLength := decodeHeader hb, bodyBuf := r.bodyBuf }
          (bs.drop k)
      else
        ({ headerBuf := hb, expectedBodyLength := r.expectedBodyLength, bodyBuf := r.bodyBuf }, [])
    else
      let k := min (r.expectedBodyLength - r.bodyBuf.length) bs.length
      let body := r.bodyBuf ++ bs.take k
      if body.length = r.expectedBodyLength then
        let res := Reassembler.feedAux fuel Reassembler.clear (bs.drop k)
        (res.1, body :: res.2)
      else
        ({ headerBuf := r.headerBuf, expectedBodyLength := r.expectedBodyLength, bodyBuf := body }, [])

/-- Passes of the loop needed for a chunk: each pass in AwaitingHeader that goes
on consumes at least one byte, each pass in AwaitingBody returns to
AwaitingHeader. -/
def Reassembler.passes (r : Reassembler) (bs : List Byte) : Nat :=
  2 * bs.length + (if r.headerBuf.length < 2 then 1 else 2)

/-- Feed one chunk to the reassembler: the new state and the bodies of the
frames completed by this chunk, in arrival order. -/
def Reassembler.feed (r : Reassembler) (bs : List Byte) : Reassembler × List (List Byte) :=
  Reassembler.feedAux (2 * bs.length + 2) r bs

/-! ## The connection object -/

/-- The data members declared in `src/server/ClientConnection.h`:
`quint16 mIncomingMsgHeader`, `uint64_t mBytesSent`, `uint64_t mBytesReceived`
(the logger is left out). -/
structure ClientConnection where
  mIncomingMsgHeader : Nat
  mBytesSent : Nat
  mBytesReceived : Nat
  deriving DecidableEq, Repr

/-- `uint64_t getBytesSent() const { return mBytesSent; }`, in state-passing
form: the value returned and the object after the call. -/
def ClientConnection.getBytesSent (c : ClientConnection) : Nat × ClientConnection :=
  (c.mBytesSent, c)

/-- `uint64_t getBytesReceived() const { return mBytesReceived; }`, in
state-passing form: the value returned and the object after the call. -/
def ClientConnection.getBytesReceived (c : ClientConnection) : Nat × ClientConnection :=
  (c.mBytesReceived, c)

/-- Modelled from the spec: the Connection of section 3, whose operations are
defined in the absent `ClientConnection.cpp`.  `core` holds the declared data
members (`mIncomingMsgHeader` is the spec's `expectedBodyLength`), `headerBuf`
and `bodyBuf` the partially assembled frame, `closed` whether the transport is
closed or broken, `written` every byte handed to the transport so far. -/
structure Connection where
  core : ClientConnection
  headerBuf : List Byte
  bodyBuf : List Byte
  closed : Bool
  written : List Byte
  deriving DecidableEq, Repr

/-- Modelled from the spec: a connection just created on an open transport:
counters at zero, no frame in progress, nothing written. -/
def Connection.fresh : Connection :=
  { core := { mIncomingMsgHeader := 0, mBytesSent := 0, mBytesReceived := 0 },
    headerBuf := [], bodyBuf := [], closed := false, written := [] }

/-- The reassembler state held by a connection. -/
def Connection.reassembler (c : Connection) : Reassembler :=
  { headerBuf := c.headerBuf, expectedBodyLength := c.core.mIncomingMsgHeader,
    bodyBuf := c.bodyBuf }

/-- Modelled from the spec: sections 4.3, 4.4 and 7.  The reassembled bodies are
decoded in arrival order, one received-message event each, up to the first
body that does not decode; such a failure is fatal, nothing after it is
processed.  Returns the events raised and whether every body decoded. -/
def deliver {M : Type} (decode : List Byte → Option M) : List (List Byte) → List M × Bool
  | [] => ([], true)
  | b :: rest =>
    match decode b with
    | none => ([], false)
    | some m => (m :: (deliver decode rest).1, (deliver decode rest).2)

/-- Modelled from the spec: the on-readable-data notification of section 4.4
(`handleReadyRead`, defined in the absent `ClientConnection.cpp`).  All bytes
of the chunk are fed to the reassembler, `bytesReceived` grows by the number of
raw bytes, and every completed frame is decoded and raised as a `msgReceived`
event, in order.  A closed connection processes nothing; a decode failure
closes the connection and discards the frame in progress.  Returns the new
state and the `msgReceived` emissions of this call. -/
def Connection.handleReadyRead {M : Type} (decode : List Byte → Option M)
    (c : Connection) (chunk : List Byte) : Connection × List M :=
  if c.closed then (c, [])
  else
    let fed := Reassembler.feed c.reassembler chunk
    let out := deliver decode fed.2
    let recv := (c.core.mBytesReceived + chunk.length) % U64
    if out.2 then
      ({ core := { mIncomingMsgHeader := fed.1.expectedBodyLength,
                   mBytesSent := c.core.mBytesSent, mBytesReceived := recv },
         headerBuf := fed.1.headerBuf, bodyBuf := fed.1.bodyBuf,
         closed := false, written := c.written }, out.1)
    else
      ({ core := { mIncomingMsgHeader := 0,
                   mBytesSent := c.core.mBytesSent, mBytesReceived := recv },
         headerBuf := [], bodyBuf := [],
         closed := true, written := c.written }, out.1)

/-- Modelled from the spec: `send` of section 4.4 (`sendMsg`, defined in the
absent `ClientConnection.cpp`).  The message is encoded, the 2-byte header for
the encoded length is prepended, the frame is written to the transport and
`bytesSent` grows by header plus body length.  The call fails, writing
nothing, when the transport is closed or the encoded body exceeds 65535
bytes.  Returns the new state and the success flag. -/
def Connection.sendMsg {M : Type} (encode : M → List Byte)
    (c : Connection) (m : M) : Connection × Bool :=
  if c.closed then (c, false)
  else
    match encodeHeader (encode m).length with
    | none => (c, false)
    | some hdr =>
      ({ core := { mIncomingMsgHeader := c.core.mIncomingMsgHeader,
                   mBytesSent := (c.core.mBytesSent + (hdr.length + (encode m).length)) % U64,
                   mBytesReceived := c.core.mBytesReceived },
         headerBuf := c.headerBuf, bodyBuf := c.bodyBuf,
         closed := false, written := c.written ++ (hdr ++ encode m) }, true)

/-- A run of `handleReadyRead`, one call per chunk: the final state and all
`msgReceived` emissions in order. -/
def Connection.receiveAll {M : Type} (decode : List Byte → Option M) :
    Connection → List (List Byte) → Connection × List M
  | c, [] => (c, [])
  | c, chunk :: rest =>
    ((Connection.receiveAll decode (Connection.handleReadyRead decode c chunk).1 rest).1,
     (Connection.handleReadyRead decode c chunk).2 ++
       (Connection.receiveAll decode (Connection.handleReadyRead decode c chunk).1 rest).2)

/-- A run of `sendMsg`, one call per message: the final state and the success
flag of every call. -/
def Connection.sendAll {M : Type} (encode : M → List Byte) :
    Connection → List M → Connection × List Bool
  | c, [] => (c, [])
  | c, m :: rest =>
    ((Connection.sendAll encode (Connection.sendMsg encode c m).1 rest).1,
     (Connection.sendMsg encode c m).2 ::
       (Connection.sendAll encode (Connection.sendMsg encode c m).1 rest).2)

/-! ## CommanderPane (`src/client/CommanderPane.cpp`) -/

/-- Modelled from the spec: `clienttypes.h`, which declares `CardZoneType`, is
missing from the sources and the spec does not describe it; the type is
rebuilt from the enumerators that `CommanderPane.cpp` names, and
`CARD_ZONE_OTHER` stands for any further enumerator. -/
inductive CardZoneType
  | CARD_ZONE_DRAFT
  | CARD_ZONE_MAIN
  | CARD_ZONE_SIDEBOARD
  | CARD_ZONE_JUNK
  | CARD_ZONE_OTHER (n : Nat)
  deriving DecidableEq, Repr

open CardZoneType

/-- A `CardDataSharedPtr`, compared by pointer identity. -/
abbrev CardDataSharedPtr := Nat

/-- A `BasicLandType` enumerator (its header is not among the sources). -/
abbrev BasicLandType := Nat

/-- What the constructor cannot know from its arguments: the value read
through `begin()` of an empty `std::map` (undefined in C++, line 162-164), the
`CardZoneType` with value 0 that `operator[]` inserts for an absent key
(line 153), and the height Qt reports for the draft timer widget. -/
structure Env where
  undefEntry : Int × CardZoneType
  zeroZone : CardZoneType
  timerHeight : Int
  deriving DecidableEq, Repr

/-- A tab of `mCardViewerTabWidget`: the scroll area around the
`CardViewerWidget` created for `cardZone` (lines 49-72). -/
structure TabPage where
  cardZone : CardZoneType
  deriving DecidableEq, Repr

/-- A page of `mStackedWidget`, by what the constructor puts in it: the
container with a `BasicLandControlWidget` forwarding for `zone`
(lines 85-112), the container with the draft pack queue and the draft timer
(lines 119-139), or an empty `QWidget` (line 144). -/
inductive StackPage
  | basicLandControls (zone : CardZoneType)
  | draftControls
  | empty
  deriving DecidableEq, Repr

/-- Qt's `QTabWidget`: its pages in index order and the current index
(-1 when there is no tab). -/
structure QTabWidget where
  pages : List TabPage
  currentIndex : Int
  deriving DecidableEq, Repr

/-- `QTabWidget::addTab`: the tab is appended and its index returned; the first
tab added becomes the current one. -/
def QTabWidget.addTab (w : QTabWidget) (page : TabPage) : QTabWidget × Int :=
  ({ pages := w.pages ++ [page],
     currentIndex := if w.pages.isEmpty then 0 else w.currentIndex },
   (w.pages.length : Int))

/-- `QTabWidget::setCurrentIndex`: an index out of range or equal to the current
one changes nothing; otherwise the index becomes current and `currentChanged`
is emitted with it (returned as `some index`). -/
def QTabWidget.setCurrentIndex (w : QTabWidget) (index : Int) : QTabWidget × Option Int :=
  if 0 ≤ index ∧ index < (w.pages.length : Int) ∧ index ≠ w.currentIndex then
    ({ pages := w.pages, currentIndex := index }, some index)
  else (w, none)

/-- Qt's `QStackedWidget`: its pages in index order and the current index
(-1 when empty). -/
structure QStackedWidget where
  pages : List StackPage
  currentIndex : Int
  deriving DecidableEq, Repr

/-- `QStackedWidget::addWidget`: the page is appended; the first page added
becomes the current one. -/
def QStackedWidget.addWidget (w : QStackedWidget) (page : StackPage) : QStackedWidget :=
  { pages := w.pages ++ [page],
    currentIndex := if w.pages.isEmpty then 0 else w.currentIndex }

/-- `QStackedWidget::setCurrentIndex`: an index out of range changes nothing. -/
def QStackedWidget.setCurrentIndex (w : QStackedWidget) (index : Int) : QStackedWidget :=
  if 0 ≤ index ∧ index < (w.pages.length : Int) then
    { pages := w.pages, currentIndex := index }
  else w

/-- `std::map<int, V>::operator[]` followed by assignment: the entries stay
sorted by key, an existing key is overwritten. -/
def intMapAssign {V : Type} (k : Int) (v : V) : List (Int × V) → List (Int × V)
  | [] => [(k, v)]
  | (k', v') :: rest =>
    if k < k' then (k, v) :: (k', v') :: rest
    else if k = k' then (k, v) :: rest
    else (k', v') :: intMapAssign k v rest

/-- `std::map<int, V>::operator[]` used as a read: the stored value, or a
value-initialised `dflt` when the key is absent. -/
def intMapIndex {V : Type} (dflt : V) (k : Int) : List (Int × V) → V
  | [] => dflt
  | (k', v') :: rest => if k = k' then v' else intMapIndex dflt k rest

/-- `std::map<CardZoneType, V>::operator[]` followed by assignment; the map is
kept as an association list (only `find` and `operator[]` are used on it, so
the key order does not matter). -/
def zoneMapAssign {V : Type} (k : CardZoneType) (v : V) :
    List (CardZoneType × V) → List (CardZoneType × V)
  | [] => [(k, v)]
  | (k', v') :: rest =>
    if k = k' then (k, v) :: rest else (k', v') :: zoneMapAssign k v rest

/-- The `DraftTimerWidget` and the height Qt reports for it. -/
structure DraftTimerWidget where
  height : Int
  deriving DecidableEq, Repr

/-- A pack graphic of the draft queue: a `SizedSvgWidget` showing the card back,
scaled to `scalingHeight` (lines 296-298). -/
structure SizedSvgWidget where
  scalingHeight : Int
  deriving DecidableEq, Repr

/-- The items of a `QBoxLayout`, in index order. -/
abbrev QBoxLayout := List SizedSvgWidget

/-- The members of `CommanderPane` the constructor's zone loop, the draft queue
and the context menus work on.  Widgets held in the zone maps are named by the
tab index of the loop pass that created them; a null pointer is `none`. -/
structure CommanderPane where
  mCurrentCardZone : CardZoneType
  mStackedWidget : QStackedWidget
  mCardViewerTabWidget : QTabWidget
  mCardViewerWidgetMap : List (CardZoneType × Int)
  mBasicLandControlWidgetMap : List (CardZoneType × Int)
  mTabIndexToCardZoneMap : List (Int × CardZoneType)
  mCardZoneToTabIndexMap : List (CardZoneType × Int)
  mDraftTimerWidget : Option DraftTimerWidget
  mDraftPackQueueLayout : Option QBoxLayout
  deriving DecidableEq, Repr

/-- `CardZoneType getCurrentCardZone() const { return mCurrentCardZone; }`. -/
def CommanderPane.getCurrentCardZone (p : CommanderPane) : CardZoneType :=
  p.mCurrentCardZone

/-- The pane at line 43 of the constructor: both widgets created and empty, the
maps empty, `mDraftTimerWidget` and `mDraftPackQueueLayout` null;
`mCurrentCardZone` is not initialised yet and holds an indeterminate value. -/
def CommanderPane.init (env : Env) : CommanderPane :=
  { mCurrentCardZone := env.undefEntry.2,
    mStackedWidget := { pages := [], currentIndex := -1 },
    mCardViewerTabWidget := { pages := [], currentIndex := -1 },
    mCardViewerWidgetMap := [],
    mBasicLandControlWidgetMap := [],
    mTabIndexToCardZoneMap := [],
    mCardZoneToTabIndexMap := [],
    mDraftTimerWidget := none,
    mDraftPackQueueLayout := none }

/-- One pass of the zone loop, lines 45-148 (tab titles, signal wiring and
sizes are not modelled). -/
def CommanderPane.zoneStep (env : Env) (p : CommanderPane) (cardZone : CardZoneType) :
    CommanderPane :=
  let added := p.mCardViewerTabWidget.addTab { cardZone := cardZone }
  let tabIndex := added.2
  let p1 : CommanderPane :=
    { p with
      mCardViewerTabWidget := added.1,
      mCardViewerWidgetMap := zoneMapAssign cardZone tabIndex p.mCardViewerWidgetMap,
      mTabIndexToCardZoneMap := intMapAssign tabIndex cardZone p.mTabIndexToCardZoneMap,
      mCardZoneToTabIndexMap := zoneMapAssign cardZone tabIndex p.mCardZoneToTabIndexMap }
  if cardZone = CARD_ZONE_MAIN ∨ cardZone = CARD_ZONE_SIDEBOARD then
    { p1 with
      mStackedWidget := p1.mStackedWidget.addWidget (StackPage.basicLandControls cardZone),
      mBasicLandControlWidgetMap :=
        zoneMapAssign cardZone tabIndex p1.mBasicLandControlWidgetMap }
  else if cardZone = CARD_ZONE_DRAFT then
    { p1 with
      mDraftPackQueueLayout := some [],
      mDraftTimerWidget := some { height := env.timerHeight },
      mStackedWidget := p1.mStackedWidget.addWidget StackPage.draftControls }
  else
    { p1 with mStackedWidget := p1.mStackedWidget.addWidget StackPage.empty }

/-- The stacked-widget page a pass of the zone loop adds for a zone: the three
branches of lines 82-145. -/
def stackPageFor (cardZone : CardZoneType) : StackPage :=
  if cardZone = CARD_ZONE_MAIN ∨ cardZone = CARD_ZONE_SIDEBOARD then
    StackPage.basicLandControls cardZone
  else if cardZone = CARD_ZONE_DRAFT then StackPage.draftControls
  else StackPage.empty

/-- The entries `(k, z0), (k+1, z1), ...` of a tab-index map filled in tab
order. -/
def tabEntries : Nat → List CardZoneType → List (Int × CardZoneType)
  | _, [] => []
  | k, z :: zs => ((k : Int), z) :: tabEntries (k + 1) zs

/-- The state of the two widgets and of `mTabIndexToCardZoneMap` between passes
of the zone loop: as many tabs as stack pages, the map listing the zones of
the tabs in tab order, and the first entry, if any, current in both widgets. -/
def CommanderPane.TabsMatch (p : CommanderPane) : Prop :=
  p.mCardViewerTabWidget.pages.length = p.mStackedWidget.pages.length ∧
  p.mTabIndexToCardZoneMap = tabEntries 0 (p.mCardViewerTabWidget.pages.map TabPage.cardZone) ∧
  p.mCardViewerTabWidget.currentIndex
    = (if p.mCardViewerTabWidget.pages.isEmpty then -1 else 0) ∧
  p.mStackedWidget.currentIndex = (if p.mStackedWidget.pages.isEmpty then -1 else 0)

/-- The handler connected to `currentChanged`, lines 150-156. -/
def CommanderPane.onCurrentChanged (env : Env) (p : CommanderPane) (index : Int) :
    CommanderPane :=
  { p with
    mCurrentCardZone := intMapIndex env.zeroZone index p.mTabIndexToCardZoneMap,
    mTabIndexToCardZoneMap :=
      if p.mTabIndexToCardZoneMap.any (fun e => e.1 == index) then p.mTabIndexToCardZoneMap
      else intMapAssign index env.zeroZone p.mTabIndexToCardZoneMap,
    mStackedWidget := p.mStackedWidget.setCurrentIndex index }

/-- `mCardViewerTabWidget->setCurrentIndex( index )` once the handler is
connected: the handler runs when `currentChanged` is emitted. -/
def CommanderPane.setCurrentTab (env : Env) (p : CommanderPane) (index : Int) :
    CommanderPane :=
  match p.mCardViewerTabWidget.setCurrentIndex index with
  | (w, none) => { p with mCardViewerTabWidget := w }
  | (w, some i) => CommanderPane.onCurrentChanged env { p with mCardViewerTabWidget := w } i

/-- The zone loop of the constructor, lines 45-148. -/
def CommanderPane.zoneLoop (env : Env) (cardZones : List CardZoneType) : CommanderPane :=
  cardZones.foldl (CommanderPane.zoneStep env) (CommanderPane.init env)

/-- The constructor `CommanderPane::CommanderPane`, lines 25-234, as far as the
members above go: the zone loop, the connection of the `currentChanged`
handler, and lines 161-164, which make the first entry of
`mTabIndexToCardZoneMap` the active tab and the current card zone.  For an
empty map the entry read is `env.undefEntry`. -/
def CommanderPane.new (env : Env) (cardZones : List CardZoneType) : CommanderPane :=
  let p := CommanderPane.zoneLoop env cardZones
  let firstTabEntry : Int × CardZoneType :=
    match p.mTabIndexToCardZoneMap with
    | e :: _ => e
    | [] => env.undefEntry
  let p1 := CommanderPane.setCurrentTab env p firstTabEntry.1
  { p1 with mCurrentCardZone := firstTabEntry.2 }

/-- The loop `for( int i = 0; i < n; ++i )` of lines 293-300: each pass reads
`mDraftTimerWidget->height()` and appends a pack widget.  `none` is a null
pointer dereference. -/
def addPackWidgets (timer : Option DraftTimerWidget) : Nat → QBoxLayout → Option QBoxLayout
  | 0, layout => some layout
  | n + 1, layout =>
    match timer with
    | none => none
    | some t => addPackWidgets timer n (layout ++ [{ scalingHeight := t.height }])

/-- The loop `for( int i = 0; i < n; ++i )` of lines 305-309: each pass takes
the item at index 0 and deletes its widget.  `takeAt` returns null on an empty
layout, and `item->widget()` is then a null pointer dereference (`none`). -/
def takePackWidgets : Nat → QBoxLayout → Option QBoxLayout
  | 0, layout => some layout
  | n + 1, layout =>
    match layout with
    | [] => none
    | _ :: rest => takePackWidgets n rest

/-- `CommanderPane::setDraftQueuedPacks`, lines 277-312.  `clearLayout` is
`qtutils::clearLayout`, whose code is not among the sources.  The differences
`count - oldCount` and `oldCount - count` are taken where `0 < count` and
`0 ≤ oldCount`, so they cannot overflow an `int`.  The result is `none` when
the call dereferences a null pointer. -/
def CommanderPane.setDraftQueuedPacks (clearLayout : QBoxLayout → QBoxLayout)
    (p : CommanderPane) (count : Int) : Option CommanderPane :=
  match p.mDraftPackQueueLayout with
  | none => some p
  | some layout =>
    let oldCount : Int := (layout.length : Int)
    if count ≤ 0 then
      some { p with mDraftPackQueueLayout := some (clearLayout layout) }
    else if count > oldCount then
      (addPackWidgets p.mDraftTimerWidget (count - oldCount).toNat layout).map
        (fun l => { p with mDraftPackQueueLayout := some l })
    else
      (takePackWidgets (oldCount - count).toNat layout).map
        (fun l => { p with mDraftPackQueueLayout := some l })

/-- Number of pack widgets in the draft pack queue (0 when there is no queue). -/
def CommanderPane.draftQueuedPacks (p : CommanderPane) : Int :=
  match p.mDraftPackQueueLayout with
  | none => 0
  | some layout => (layout.length : Int)

/-! ### Context menus -/

/-- A `QMenu`: the labels of its actions in order.  The pointer to the action
at position `i` is `i + 1`; `0` is the null pointer, which `exec` returns when
the menu is dismissed. -/
structure QMenu where
  actions : List String
  deriving DecidableEq, Repr

/-- `QMenu::addAction`: the action is appended and its pointer returned. -/
def QMenu.addAction (m : QMenu) (label : String) : QMenu × Nat :=
  ({ actions := m.actions ++ [label] }, m.actions.length + 1)

/-- `QMenu::addSeparator`: a separator action is appended and its pointer
returned. -/
def QMenu.addSeparator (m : QMenu) : QMenu × Nat :=
  ({ actions := m.actions ++ ["--"] }, m.actions.length + 1)

/-- What the handlers do besides showing a menu: the two signals of
`CommanderPane.h` lines 49-53, and the call
`mBasicLandControlWidgetMap[zone]->decrementBasicLandQuantity( basic )`. -/
inductive Effect
  | cardZoneMoveRequest (srcCardZone : CardZoneType) (cardData : CardDataSharedPtr)
      (destCardZone : CardZoneType)
  | cardZoneMoveAllRequest (srcCardZone : CardZoneType) (destCardZone : CardZoneType)
  | decrementBasicLandQuantity (cardZone : CardZoneType) (basic : BasicLandType)
  deriving DecidableEq, Repr

/-- `CommanderPane::isBasicLandCardData`, lines 522-534: the first basic land
type of `gBasicLandTypeArray` whose card data in `mBasicLandCardDataMap` is
`cardData`.  The array and the map's `getCardData` are declared in headers
that are not among the sources and are taken as parameters. -/
def isBasicLandCardData (gBasicLandTypeArray : List BasicLandType)
    (getCardData : BasicLandType → CardDataSharedPtr) (cardData : CardDataSharedPtr) :
    Option BasicLandType :=
  gBasicLandTypeArray.find? (fun basic => cardData == getCardData basic)

/-- The menu built by a context-menu handler and the action pointers it keeps
(`0` for an action that was not added). -/
structure ZoneMenu where
  menu : QMenu
  mainAction : Nat
  sbAction : Nat
  junkAction : Nat
  removeLandAction : Nat
  deriving DecidableEq, Repr

/-- `if( cond ) action = menu.addAction( label );` -/
def addActionIf (cond : Bool) (m : QMenu) (label : String) : QMenu × Nat :=
  if cond then m.addAction label else (m, 0)

/-- Lines 425-456 of `handleCardContextMenu`: the title and a separator, then
the actions chosen by zone and card type. -/
def CommanderPane.cardContextMenu (p : CommanderPane) (basic : Option BasicLandType)
    (cardName : String) : ZoneMenu :=
  let m0 : QMenu := { actions := [] }
  let m1 := (m0.addAction ("<b><center>" ++ cardName ++ "</center></b>")).1
  let m2 := m1.addSeparator.1
  if p.mCurrentCardZone = CARD_ZONE_DRAFT then
    let a := m2.addAction "Draft to Main"
    let b := a.1.addAction "Draft to Sideboard"
    let c := b.1.addAction "Draft to Junk"
    { menu := c.1, mainAction := a.2, sbAction := b.2, junkAction := c.2,
      removeLandAction := 0 }
  else if basic.isSome then
    let a := m2.addAction "Remove"
    { menu := a.1, mainAction := 0, sbAction := 0, junkAction := 0, removeLandAction := a.2 }
  else
    let a := addActionIf (p.mCurrentCardZone != CARD_ZONE_MAIN) m2 "Move to Main"
    let b := addActionIf (p.mCurrentCardZone != CARD_ZONE_SIDEBOARD) a.1 "Move to Sideboard"
    let c := addActionIf (p.mCurrentCardZone != CARD_ZONE_JUNK) b.1 "Move to Junk"
    { menu := c.1, mainAction := a.2, sbAction := b.2, junkAction := c.2,
      removeLandAction := 0 }

/-- `CommanderPane::handleCardContextMenu`, lines 417-470.  `exec` is
`menu.exec`: the pointer of the action the user picks in the menu shown, or 0.
`isBasicLandCardData` is called only outside the draft zone; `basicInit` is
the indeterminate initial value of the local `basic`, which the call
overwrites when the card is a basic land (the position of the menu is not
modelled). -/
def CommanderPane.handleCardContextMenu (gBasicLandTypeArray : List BasicLandType)
    (getCardData : BasicLandType → CardDataSharedPtr) (basicInit : BasicLandType)
    (p : CommanderPane) (cardData : CardDataSharedPtr) (cardName : String)
    (exec : QMenu → Nat) : List Effect :=
  let basic : Option BasicLandType :=
    if p.mCurrentCardZone = CARD_ZONE_DRAFT then none
    else isBasicLandCardData gBasicLandTypeArray getCardData cardData
  let zm := p.cardContextMenu basic cardName
  let result := exec zm.menu
  if result = 0 then []
  else if result = zm.mainAction then
    [Effect.cardZoneMoveRequest p.mCurrentCardZone cardData CARD_ZONE_MAIN]
  else if result = zm.sbAction then
    [Effect.cardZoneMoveRequest p.mCurrentCardZone cardData CARD_ZONE_SIDEBOARD]
  else if result = zm.junkAction then
    [Effect.cardZoneMoveRequest p.mCurrentCardZone cardData CARD_ZONE_JUNK]
  else if result = zm.removeLandAction then
    [Effect.decrementBasicLandQuantity p.mCurrentCardZone (basic.getD basicInit)]
  else []

/-- Lines 484-494 of `handleViewerContextMenu`: the menu shown outside the
draft zone. -/
def CommanderPane.viewerContextMenu (p : CommanderPane) : ZoneMenu :=
  let m0 : QMenu := { actions := [] }
  let a := addActionIf (p.mCurrentCardZone != CARD_ZONE_MAIN) m0 "Move all to Main"
  let b := addActionIf (p.mCurrentCardZone != CARD_ZONE_SIDEBOARD) a.1 "Move all to Sideboard"
  let c := addActionIf (p.mCurrentCardZone != CARD_ZONE_JUNK) b.1 "Move all to Junk"
  { menu := c.1, mainAction := a.2, sbAction := b.2, junkAction := c.2, removeLandAction := 0 }

/-- `CommanderPane::handleViewerContextMenu`, lines 473-504: the menu shown, if
any, and the signals emitted. -/
def CommanderPane.handleViewerContextMenu (p : CommanderPane) (exec : QMenu → Nat) :
    Option QMenu × List Effect :=
  if p.mCurrentCardZone = CARD_ZONE_DRAFT then (none, [])
  else
    let zm := p.viewerContextMenu
    let result := exec zm.menu
    (some zm.menu,
      if result = 0 then []
      else if result = zm.mainAction then
        [Effect.cardZoneMoveAllRequest p.mCurrentCardZone CARD_ZONE_MAIN]
      else if result = zm.sbAction then
        [Effect.cardZoneMoveAllRequest p.mCurrentCardZone CARD_ZONE_SIDEBOARD]
      else if result = zm.junkAction then
        [Effect.cardZoneMoveAllRequest p.mCurrentCardZone CARD_ZONE_JUNK]
      else [])

/-- The action pointer a menu keeps for a move destination (0 for a zone that
is never a destination). -/
def ZoneMenu.actionFor (zm : ZoneMenu) : CardZoneType → Nat
  | CARD_ZONE_MAIN => zm.mainAction
  | CARD_ZONE_SIDEBOARD => zm.sbAction
  | CARD_ZONE_JUNK => zm.junkAction
  | _ => 0

/-- The move destinations a menu offers: the zones whose action was added. -/
def ZoneMenu.destinations (zm : ZoneMenu) : List CardZoneType :=
  [CARD_ZONE_MAIN, CARD_ZONE_SIDEBOARD, CARD_ZONE_JUNK].filter
    (fun z => zm.actionFor z != 0)

/-- One event in the life of a connection: a call of `sendMsg` with a message,
or a readable-data notification bringing a chunk to `handleReadyRead`. -/
inductive Op (M : Type)
  | send (m : M)
  | ready (chunk : List Byte)

/-- The connection after one event, whatever its outcome (a send may be
refused, a chunk may be ignored by a closed connection or end in a fatal
decode failure). -/
def Connection.step {M : Type} (encode : M → List Byte) (decode : List Byte → Option M)
    (c : Connection) : Op M → Connection
  | Op.send m => (Connection.sendMsg encode c m).1
  | Op.ready chunk => (Connection.handleReadyRead decode c chunk).1

/-- The connection after a sequence of events. -/
def Connection.run {M : Type} (encode : M → List Byte) (decode : List Byte → Option M)
    (c : Connection) (ops : List (Op M)) : Connection :=
  ops.foldl (Connection.step encode decode) c

/-- The most wire bytes one event can add to a counter: header plus encoded body
for a send, the chunk length for a readable-data notification. -/
def Op.bytes {M : Type} (encode : M → List Byte) : Op M → Nat
  | Op.send m => 2 + (encode m).length
  | Op.ready chunk => chunk.length

/-- The most wire bytes a sequence of events can add to a counter. -/
def traffic {M : Type} (encode : M → List Byte) (ops : List (Op M)) : Nat :=
  (ops.map (Op.bytes encode)).sum

/-! # Theorems -/

/-! ### Properties of the reassembler -/

theorem Reassembler.feedAux_succ (fuel : Nat) (r : Reassembler) (bs : List Byte) :
    Reassembler.feedAux (fuel + 1) r bs =
      if r.headerBuf.length < 2 then
        if (r.headerBuf ++ bs.take (min (2 - r.headerBuf.length) bs.length)).length = 2 then
          Reassembler.feedAux fuel
            { headerBuf := r.headerBuf ++ bs.take (min (2 - r.headerBuf.length) bs.length),
              expectedBodyLength :=
                decodeHeader (r.headerBuf ++ bs.take (min (2 - r.headerBuf.length) bs.length)),
              bodyBuf := r.bodyBuf }
            (bs.drop (min (2 - r.headerBuf.length) bs.length))
        else
          ({ headerBuf := r.headerBuf ++ bs.take (min (2 - r.headerBuf.length) bs.length),
             expectedBodyLength := r.expectedBodyLength, bodyBuf := r.bodyBuf }, [])
      else
        if (r.bodyBuf ++ bs.take (min (r.expectedBodyLength - r.bodyBuf.length) bs.length)).length
            = r.expectedBodyLength then
          ((Reassembler.feedAux fuel Reassembler.clear
              (bs.drop (min (r.expectedBodyLength - r.bodyBuf.length) bs.length))).1,
           (r.bodyBuf ++ bs.take (min (r.expectedBodyLength - r.bodyBuf.length) bs.length)) ::
           (Reassembler.feedAux fuel Reassembler.clear
              (bs.drop (min (r.expectedBodyLength - r.bodyBuf.length) bs.length))).2)
        else
          ({ headerBuf := r.headerBuf, expectedBodyLength := r.expectedBodyLength,
             bodyBuf := r.bodyBuf ++
               bs.take (min (r.expectedBodyLength - r.bodyBuf.length) bs.length) }, []) := rfl

theorem Reassembler.feedAux_fuel (f : Nat) :
    ∀ (g : Nat) (r : Reassembler) (bs : List Byte),
      Reassembler.passes r bs ≤ f → Reassembler.passes r bs ≤ g →
      Reassembler.feedAux f r bs = Reassembler.feedAux g r bs := by
  induction f with
  | zero =>
    intro g r bs hf _
    unfold Reassembler.passes at hf
    split at hf <;> omega
  | succ f ih =>
    intro g r bs hf hg
    cases g with
    | zero =>
      unfold Reassembler.passes at hg
      split at hg <;> omega
    | succ g =>
      unfold Reassembler.passes at hf hg
      rw [Reassembler.feedAux_succ, Reassembler.feedAux_succ]
      by_cases hh : r.headerBuf.length < 2
      · simp only [hh, if_true] at hf hg
        simp only [hh, if_true]
        by_cases h2 : (r.headerBuf ++ List.take (min (2 - r.headerBuf.length) bs.length) bs).length = 2
        · simp only [h2, if_true]
          have hk : 1 ≤ min (2 - r.headerBuf.length) bs.length := by
            simp only [List.length_append, List.length_take] at h2
            omega
          apply ih
          · simp only [Reassembler.passes, h2, List.length_drop]
            simp; omega
          · simp only [Reassembler.passes, h2, List.length_drop]
            simp; omega
        · simp only [h2, if_false]
      · simp only [hh, if_false] at hf hg
        simp only [hh, if_false]
        by_cases h2 : (r.bodyBuf ++ List.take (min (r.expectedBodyLength - r.bodyBuf.length) bs.length) bs).length
            = r.expectedBodyLength
        · simp only [h2, if_true]
          rw [ih g Reassembler.clear _ _ _]
          · simp only [Reassembler.passes, Reassembler.clear, List.length_drop]
            simp; omega
          · simp only [Reassembler.passes, Reassembler.clear, List.length_drop]
            simp; omega
        · simp only [h2, if_false]

theorem Reassembler.feed_header (r : Reassembler) (bs : List Byte)
    (hh : r.headerBuf.length < 2) :
    Reassembler.feed r bs =
      if (r.headerBuf ++ bs.take (min (2 - r.headerBuf.length) bs.length)).length = 2 then
        Reassembler.feed
          { headerBuf := r.headerBuf ++ bs.take (min (2 - r.headerBuf.length) bs.length),
            expectedBodyLength :=
              decodeHeader (r.headerBuf ++ bs.take (min (2 - r.headerBuf.length) bs.length)),
            bodyBuf := r.bodyBuf }
          (bs.drop (min (2 - r.headerBuf.length) bs.length))
      else
        ({ headerBuf := r.headerBuf ++ bs.take (min (2 - r.headerBuf.length) bs.length),
           expectedBodyLength := r.expectedBodyLength, bodyBuf := r.bodyBuf }, []) := by
  unfold Reassembler.feed
  rw [Reassembler.feedAux_succ]
  simp only [hh, if_true]
  split
  · rename_i h2
    apply Reassembler.feedAux_fuel
    · simp only [Reassembler.passes, h2, List.length_drop]
      simp only [List.length_append, List.length_take] at h2
      simp; omega
    · simp only [Reassembler.passes, h2, List.length_drop]
      simp
  · rfl

theorem Reassembler.feed_body (r : Reassembler) (bs : List Byte)
    (hh : ¬ r.headerBuf.length < 2) :
    Reassembler.feed r bs =
      if (r.bodyBuf ++ bs.take (min (r.expectedBodyLength - r.bodyBuf.length) bs.length)).length
          = r.expectedBodyLength then
        ((Reassembler.feed Reassembler.clear
            (bs.drop (min (r.expectedBodyLength - r.bodyBuf.length) bs.length))).1,
         (r.bodyBuf ++ bs.take (min (r.expectedBodyLength - r.bodyBuf.length) bs.length)) ::
         (Reassembler.feed Reassembler.clear
            (bs.drop (min (r.expectedBodyLength - r.bodyBuf.length) bs.length))).2)
      else
        ({ headerBuf := r.headerBuf, expectedBodyLength := r.expectedBodyLength,
           bodyBuf := r.bodyBuf ++
             bs.take (min (r.expectedBodyLength - r.bodyBuf.length) bs.length) }, []) := by
  unfold Reassembler.feed
  rw [Reassembler.feedAux_succ]
  simp only [hh, if_false]
  split
  · rw [Reassembler.feedAux_fuel (2 * bs.length + 1) _ Reassembler.clear _ _ _]
    · simp only [Reassembler.passes, Reassembler.clear, List.length_drop]
      simp
    · simp only [Reassembler.passes, Reassembler.clear, List.length_drop]
      simp
  · rfl

theorem Reassembler.feed_nil_header (r : Reassembler) (hh : r.headerBuf.length < 2) :
    Reassembler.feed r [] = (r, []) := by
  rw [Reassembler.feed_header r [] hh]
  have h2 : ¬ (r.headerBuf ++ List.take (min (2 - r.headerBuf.length) ([] : List Byte).length) []).length = 2 := by
    simp; omega
  rw [if_neg h2]
  cases r
  simp

/-- Splitting a chunk in two at any offset changes neither the final state nor
the bodies produced. -/
theorem Reassembler.feed_append_aux (n : Nat) :
    ∀ (r : Reassembler) (a b : List Byte), Reassembler.passes r a ≤ n →
      Reassembler.feed r (a ++ b) =
        ((Reassembler.feed (Reassembler.feed r a).1 b).1,
         (Reassembler.feed r a).2 ++ (Reassembler.feed (Reassembler.feed r a).1 b).2) := by
  induction n with
  | zero =>
    intro r a b hn
    unfold Reassembler.passes at hn
    split at hn <;> omega
  | succ n ih =>
    intro r a b hn
    unfold Reassembler.passes at hn
    by_cases hh : r.headerBuf.length < 2
    · simp only [hh, if_true] at hn
      by_cases hA : 2 - r.headerBuf.length ≤ a.length
      · -- the header completes inside `a`
        have hk1 : min (2 - r.headerBuf.length) (a ++ b).length = 2 - r.headerBuf.length := by
          simp only [List.length_append]; omega
        have hk2 : min (2 - r.headerBuf.length) a.length = 2 - r.headerBuf.length := by
          omega
        rw [Reassembler.feed_header r (a ++ b) hh, Reassembler.feed_header r a hh, hk1, hk2,
          List.take_append_of_le_length hA, List.drop_append_of_le_length hA]
        have h2 : (r.headerBuf ++ List.take (2 - r.headerBuf.length) a).length = 2 := by
          simp only [List.length_append, List.length_take]; omega
        rw [if_pos h2, if_pos h2]
        apply ih
        simp only [Reassembler.passes, h2, List.length_drop]
        simp; omega
      · -- `a` ends before the header is complete
        have hka : min (2 - r.headerBuf.length) a.length = a.length := by omega
        have hfa : Reassembler.feed r a =
            ({ headerBuf := r.headerBuf ++ a, expectedBodyLength := r.expectedBodyLength,
               bodyBuf := r.bodyBuf }, []) := by
          rw [Reassembler.feed_header r a hh, hka, List.take_length, if_neg]
          simp only [List.length_append]; omega
        have hh1 : (r.headerBuf ++ a).length < 2 := by
          simp only [List.length_append]; omega
        have hk : min (2 - r.headerBuf.length) (a ++ b).length
            = a.length + min (2 - (r.headerBuf ++ a).length) b.length := by
          simp only [List.length_append]; omega
        rw [hfa, Reassembler.feed_header r (a ++ b) hh,
          Reassembler.feed_header ⟨r.headerBuf ++ a, r.expectedBodyLength, r.bodyBuf⟩ b hh1, hk,
          List.take_append, List.drop_append]
        simp only [List.nil_append, List.append_assoc]
    · simp only [hh, if_false] at hn
      by_cases hA : r.expectedBodyLength - r.bodyBuf.length ≤ a.length
      · -- the body completes inside `a` (or can never complete)
        have hk1 : min (r.expectedBodyLength - r.bodyBuf.length) (a ++ b).length
            = r.expectedBodyLength - r.bodyBuf.length := by
          simp only [List.length_append]; omega
        have hk2 : min (r.expectedBodyLength - r.bodyBuf.length) a.length
            = r.expectedBodyLength - r.bodyBuf.length := by
          omega
        rw [Reassembler.feed_body r (a ++ b) hh, Reassembler.feed_body r a hh, hk1, hk2,
          List.take_append_of_le_length hA, List.drop_append_of_le_length hA]
        by_cases hc : (r.bodyBuf ++ List.take (r.expectedBodyLength - r.bodyBuf.length) a).length
            = r.expectedBodyLength
        · rw [if_pos hc, if_pos hc]
          rw [ih Reassembler.clear (List.drop (r.expectedBodyLength - r.bodyBuf.length) a) b]
          · rfl
          · simp only [Reassembler.passes, Reassembler.clear, List.length_drop]
            simp; omega
        · rw [if_neg hc, if_neg hc]
          have hrem : r.expectedBodyLength - r.bodyBuf.length = 0 := by
            simp only [List.length_append, List.length_take] at hc; omega
          have hlt : r.expectedBodyLength < r.bodyBuf.length := by
            simp only [List.length_append, List.length_take] at hc; omega
          rw [hrem]
          simp only [List.take_zero, List.append_nil, List.nil_append]
          rw [Reassembler.feed_body ⟨r.headerBuf, r.expectedBodyLength, r.bodyBuf⟩ b hh]
          simp only [hrem, Nat.zero_min, List.take_zero, List.append_nil]
          rw [if_neg (by omega)]
      · -- `a` ends before the body is complete
        have hka : min (r.expectedBodyLength - r.bodyBuf.length) a.length = a.length := by omega
        have hfa : Reassembler.feed r a =
            ({ headerBuf := r.headerBuf, expectedBodyLength := r.expectedBodyLength,
               bodyBuf := r.bodyBuf ++ a }, []) := by
          rw [Reassembler.feed_body r a hh, hka, List.take_length, if_neg]
          simp only [List.length_append]; omega
        have hk : min (r.expectedBodyLength - r.bodyBuf.length) (a ++ b).length
            = a.length + min (r.expectedBodyLength - (r.bodyBuf ++ a).length) b.length := by
          simp only [List.length_append]; omega
        rw [hfa, Reassembler.feed_body r (a ++ b) hh,
          Reassembler.feed_body ⟨r.headerBuf, r.expectedBodyLength, r.bodyBuf ++ a⟩ b hh, hk,
          List.take_append, List.drop_append]
        simp only [List.nil_append, List.append_assoc]

theorem Reassembler.feed_append (r : Reassembler) (a b : List Byte) :
    Reassembler.feed r (a ++ b) =
      ((Reassembler.feed (Reassembler.feed r a).1 b).1,
       (Reassembler.feed r a).2 ++ (Reassembler.feed (Reassembler.feed r a).1 b).2) :=
  Reassembler.feed_append_aux _ r a b (le_refl _)

theorem decodeHeader_encode (n : Nat) (hn : n ≤ maxBody) :
    decodeHeader [Fin.ofNat (n / 256), Fin.ofNat (n % 256)] = n := by
  unfold maxBody at hn
  simp only [decodeHeader, Fin.ofNat, Fin.val_mk]
  omega

/-- One whole frame at the front of a chunk, met at a frame boundary, yields its
body and leaves the rest of the chunk to a cleared reassembler. -/
theorem Reassembler.feed_frame (r : Reassembler) (b rest : List Byte)
    (hh : r.headerBuf = []) (hb : r.bodyBuf = []) (hlen : b.length ≤ maxBody) :
    Reassembler.feed r (frameBytes b ++ rest) =
      ((Reassembler.feed Reassembler.clear rest).1,
       b :: (Reassembler.feed Reassembler.clear rest).2) := by
  have hlt : r.headerBuf.length < 2 := by rw [hh]; decide
  rw [Reassembler.feed_header r _ hlt]
  simp only [hh, hb, frameBytes, List.length_nil, List.nil_append, List.cons_append,
    List.length_cons]
  have hk : min (2 - 0) (b.length + rest.length + 1 + 1) = 2 := by omega
  simp only [List.length_append, hk, List.take_succ_cons, List.take_zero, List.length_cons,
    List.length_nil, List.drop_succ_cons, List.drop_zero, if_true]
  rw [Reassembler.feed_body _ _ (by simp)]
  simp only [decodeHeader_encode b.length hlen, List.length_nil, List.nil_append, Nat.sub_zero,
    List.length_append]
  have hk2 : min b.length (b.length + rest.length) = b.length := by omega
  simp only [hk2, List.take_left, List.drop_left, if_true]

theorem Reassembler.feed_clear_nil : Reassembler.feed Reassembler.clear [] = (Reassembler.clear, []) :=
  Reassembler.feed_nil_header Reassembler.clear (by decide)

/-- A buffer made of whole frames, met at a frame boundary, yields exactly the
bodies of those frames and ends at a frame boundary. -/
theorem Reassembler.feed_wire (bodies : List (List Byte)) :
    ∀ (r : Reassembler), r.headerBuf = [] → r.bodyBuf = [] →
      (∀ b ∈ bodies, b.length ≤ maxBody) →
      (Reassembler.feed r (wire bodies)).2 = bodies ∧
      (Reassembler.feed r (wire bodies)).1.headerBuf = [] ∧
      (Reassembler.feed r (wire bodies)).1.bodyBuf = [] := by
  induction bodies with
  | nil =>
    intro r hh hb _
    have hlt : r.headerBuf.length < 2 := by rw [hh]; decide
    rw [wire, Reassembler.feed_nil_header r hlt]
    exact ⟨rfl, hh, hb⟩
  | cons b rest ih =>
    intro r hh hb hlen
    have hb1 : b.length ≤ maxBody := hlen b (List.mem_cons_self _ _)
    have hrest : ∀ x ∈ rest, x.length ≤ maxBody := fun x hx => hlen x (List.mem_cons_of_mem _ hx)
    simp only [wire, Reassembler.feed_frame r b (wire rest) hh hb hb1]
    obtain ⟨h1, h2, h3⟩ := ih Reassembler.clear rfl rfl hrest
    exact ⟨by rw [h1], h2, h3⟩

theorem deliver_append {M : Type} (decode : List Byte → Option M) (xs ys : List (List Byte)) :
    deliver decode (xs ++ ys) =
      if (deliver decode xs).2 then
        ((deliver decode xs).1 ++ (deliver decode ys).1, (deliver decode ys).2)
      else deliver decode xs := by
  induction xs with
  | nil => simp [deliver]
  | cons x xs ih =>
    cases hx : decode x with
    | none => simp [deliver, hx]
    | some m =>
      simp only [List.cons_append, deliver, hx, List.append_eq]
      rw [ih]
      split <;> simp [*]

theorem Connection.receiveAll_closed {M : Type} (decode : List Byte → Option M)
    (chunks : List (List Byte)) :
    ∀ (c : Connection), c.closed = true → Connection.receiveAll decode c chunks = (c, []) := by
  induction chunks with
  | nil => intro c _; rfl
  | cons ch rest ih =>
    intro c hc
    have h1 : Connection.handleReadyRead decode c ch = (c, []) := by
      simp [Connection.handleReadyRead, hc]
    simp only [Connection.receiveAll, h1, ih c hc, List.append_nil]

/-- The emissions of a run of `handleReadyRead` over a non-empty list of chunks
are the decodable leading part of the bodies the reassembler finds in the
concatenated chunks. -/
theorem Connection.receiveAll_emissions {M : Type} (decode : List Byte → Option M)
    (rest : List (List Byte)) :
    ∀ (c : Connection) (ch : List Byte), c.closed = false →
      (Connection.receiveAll decode c (ch :: rest)).2 =
        (deliver decode (Reassembler.feed c.reassembler (ch ++ rest.flatten)).2).1 := by
  induction rest with
  | nil =>
    intro c ch hc
    simp only [Connection.receiveAll, Connection.handleReadyRead, hc, List.flatten_nil,
      List.append_nil, Bool.false_eq_true, if_false]
    split <;> rfl
  | cons ch2 rest ih =>
    intro c ch hc
    rw [Connection.receiveAll]
    simp only [List.flatten_cons]
    rw [Reassembler.feed_append, deliver_append]
    by_cases hok : (deliver decode (Reassembler.feed c.reassembler ch).2).2 = true
    · have hstep : Connection.handleReadyRead decode c ch =
          ({ core := { mIncomingMsgHeader := (Reassembler.feed c.reassembler ch).1.expectedBodyLength,
                       mBytesSent := c.core.mBytesSent,
                       mBytesReceived := (c.core.mBytesReceived + ch.length) % U64 },
             headerBuf := (Reassembler.feed c.reassembler ch).1.headerBuf,
             bodyBuf := (Reassembler.feed c.reassembler ch).1.bodyBuf,
             closed := false, written := c.written },
           (deliver decode (Reassembler.feed c.reassembler ch).2).1) := by
        simp [Connection.handleReadyRead, hc, hok]
      rw [hstep, if_pos hok]
      simp only
      rw [ih _ ch2 rfl]
      rfl
    · have hstep : Connection.handleReadyRead decode c ch =
          ({ core := { mIncomingMsgHeader := 0,
                       mBytesSent := c.core.mBytesSent,
                       mBytesReceived := (c.core.mBytesReceived + ch.length) % U64 },
             headerBuf := [], bodyBuf := [],
             closed := true, written := c.written },
           (deliver decode (Reassembler.feed c.reassembler ch).2).1) := by
        simp [Connection.handleReadyRead, hc, hok]
      rw [hstep, if_neg hok]
      simp only
      rw [Connection.receiveAll_closed decode _ _ rfl]
      simp

theorem wire_eq_nil (bodies : List (List Byte)) (h : wire bodies = []) : bodies = [] := by
  cases bodies with
  | nil => rfl
  | cons b rest => simp [wire, frameBytes] at h

theorem deliver_all {M : Type} (decode : List Byte → Option M) (bodies : List (List Byte)) :
    ∀ (msgs : List M), bodies.map decode = msgs.map some → deliver decode bodies = (msgs, true) := by
  induction bodies with
  | nil =>
    intro msgs h
    cases msgs with
    | nil => rfl
    | cons m ms => simp at h
  | cons b rest ih =>
    intro msgs h
    cases msgs with
    | nil => simp at h
    | cons m ms =>
      simp only [List.map_cons, List.cons.injEq] at h
      simp only [deliver, h.1, ih ms h.2]

/-- Emissions of any chunked delivery of a buffer of whole frames, started at a
frame boundary of an open connection. -/
theorem Connection.receiveAll_wire {M : Type} (decode : List Byte → Option M) (c : Connection)
    (bodies : List (List Byte)) (chunks : List (List Byte))
    (hopen : c.closed = false) (hh : c.headerBuf = []) (hb : c.bodyBuf = [])
    (hlen : ∀ b ∈ bodies, b.length ≤ maxBody)
    (hcut : chunks.flatten = wire bodies) :
    (Connection.receiveAll decode c chunks).2 = (deliver decode bodies).1 := by
  cases chunks with
  | nil =>
    have hnil : bodies = [] := wire_eq_nil bodies (by rw [← hcut]; rfl)
    subst hnil
    rfl
  | cons ch rest =>
    rw [Connection.receiveAll_emissions decode rest c ch hopen]
    have hcut2 : ch ++ rest.flatten = wire bodies := by rw [← hcut]; simp
    rw [hcut2, (Reassembler.feed_wire bodies c.reassembler hh hb hlen).1]

/-- C1. Chunking invariance of the receive path.  For every list of frame bodies
(each at most 65535 bytes) concatenated as frames into one buffer, and for
every way of cutting that buffer into chunks handed one by one to
`handleReadyRead` of an open connection at a frame boundary (one chunk, two
chunks split anywhere, one byte per chunk, ...), the `msgReceived` emissions
are those of the single-chunk delivery, they are the decoded bodies in order
up to the first body that does not decode, and when every body decodes they
are exactly the decoded F1..Fn. -/
theorem chunking_invariance {M : Type} (decode : List Byte → Option M) (c : Connection)
    (bodies : List (List Byte)) (chunks : List (List Byte))
    (hopen : c.closed = false) (hh : c.headerBuf = []) (hb : c.bodyBuf = [])
    (hlen : ∀ b ∈ bodies, b.length ≤ maxBody)
    (hcut : chunks.flatten = wire bodies) :
    (Connection.receiveAll decode c chunks).2
        = (Connection.receiveAll decode c [wire bodies]).2 ∧
    (Connection.receiveAll decode c chunks).2 = (deliver decode bodies).1 ∧
    (∀ msgs : List M, bodies.map decode = msgs.map some →
        (Connection.receiveAll decode c chunks).2 = msgs) := by
  have h1 := Connection.receiveAll_wire decode c bodies chunks hopen hh hb hlen hcut
  have h2 := Connection.receiveAll_wire decode c bodies [wire bodies] hopen hh hb hlen (by simp)
  refine ⟨by rw [h1, h2], h1, ?_⟩
  intro msgs hm
  rw [h1, deliver_all decode bodies msgs hm]

/-- When the bytes completing a header of value 0 arrive, the reassembler emits
one empty body at once and hands every later byte to a cleared state. -/
theorem Reassembler.feed_zero_header (r : Reassembler) (t rest : List Byte) (b0 b1 : Byte)
    (hpend : r.headerBuf.length < 2) (hb : r.bodyBuf = [])
    (hsplit : r.headerBuf ++ t = [b0, b1]) (hzero : decodeHeader [b0, b1] = 0) :
    Reassembler.feed r (t ++ rest) =
      ((Reassembler.feed Reassembler.clear rest).1,
       [] :: (Reassembler.feed Reassembler.clear rest).2) := by
  have hlen : r.headerBuf.length + t.length = 2 := by
    have := congrArg List.length hsplit
    simpa using this
  have hk : min (2 - r.headerBuf.length) (t ++ rest).length = t.length := by
    simp only [List.length_append]; omega
  rw [Reassembler.feed_header r _ hpend, hk, List.take_left, List.drop_left, hsplit,
    if_pos (by rfl), hzero, hb]
  rw [Reassembler.feed_body _ _ (by simp)]
  simp

/-- C2. Zero-length body.  For every open connection that is awaiting a header
(fewer than 2 header bytes collected, no body byte), when the chunk `t`
brings the missing header bytes and the 2-byte header decodes to 0, the call
to `handleReadyRead` raises exactly one `msgReceived`, carrying the decoding
of the empty payload; header bytes already pending plus the bytes of `t` are
exactly 2 (with nothing pending, `t` is the whole header and the counter grows
by 2); the connection is left open, awaiting the next header, with no header
or body byte pending; and bytes following the header in the same chunk are
not consumed by this frame: they are processed from the cleared state. -/
theorem zero_length_body {M : Type} (decode : List Byte → Option M) (c : Connection)
    (t : List Byte) (b0 b1 : Byte) (m0 : M)
    (hopen : c.closed = false) (hpend : c.headerBuf.length < 2) (hb : c.bodyBuf = [])
    (hsplit : c.headerBuf ++ t = [b0, b1]) (hzero : decodeHeader [b0, b1] = 0)
    (hdec : decode [] = some m0) :
    Connection.handleReadyRead decode c t =
      ({ core := { mIncomingMsgHeader := 0, mBytesSent := c.core.mBytesSent,
                   mBytesReceived := (c.core.mBytesReceived + t.length) % U64 },
         headerBuf := [], bodyBuf := [], closed := false, written := c.written }, [m0]) ∧
    c.headerBuf.length + t.length = 2 ∧
    (Connection.handleReadyRead decode c t).1.reassembler.pendingHeaderBytes = 0 ∧
    (∀ rest : List Byte, Reassembler.feed c.reassembler (t ++ rest) =
      ((Reassembler.feed Reassembler.clear rest).1,
       [] :: (Reassembler.feed Reassembler.clear rest).2)) := by
  have hfeed : ∀ rest : List Byte, Reassembler.feed c.reassembler (t ++ rest) =
      ((Reassembler.feed Reassembler.clear rest).1,
       [] :: (Reassembler.feed Reassembler.clear rest).2) :=
    fun rest => Reassembler.feed_zero_header c.reassembler t rest b0 b1 hpend hb hsplit hzero
  have hlen : c.headerBuf.length + t.length = 2 := by
    have := congrArg List.length hsplit
    simpa using this
  have h0 := hfeed []
  rw [List.append_nil, Reassembler.feed_clear_nil] at h0
  have hres : Connection.handleReadyRead decode c t =
      ({ core := { mIncomingMsgHeader := 0, mBytesSent := c.core.mBytesSent,
                   mBytesReceived := (c.core.mBytesReceived + t.length) % U64 },
         headerBuf := [], bodyBuf := [], closed := false, written := c.written }, [m0]) := by
    simp [Connection.handleReadyRead, hopen, h0, deliver, hdec, Reassembler.clear]
  refine ⟨hres, hlen, ?_, hfeed⟩
  rw [hres]
  rfl

/-- C3. Size boundary of send.  On an open connection a message whose encoded
body is exactly 65535 bytes is sent: `sendMsg` returns true, the transport
receives the header bytes 255, 255 (value 65535) followed by the body, and
the bytes-sent counter grows by 65537.  For every connection, a message whose
encoded body is 65536 bytes or longer makes `sendMsg` return false and leave
the whole state, transport output and bytes-sent counter included,
unchanged. -/
theorem send_size_boundary {M : Type} (encode : M → List Byte) (c : Connection) (m : M) :
    (c.closed = false → (encode m).length = 65535 →
      Connection.sendMsg encode c m =
        ({ core := { mIncomingMsgHeader := c.core.mIncomingMsgHeader,
                     mBytesSent := (c.core.mBytesSent + 65537) % U64,
                     mBytesReceived := c.core.mBytesReceived },
           headerBuf := c.headerBuf, bodyBuf := c.bodyBuf, closed := false,
           written := c.written ++ ((255 : Byte) :: (255 : Byte) :: encode m) }, true) ∧
      decodeHeader [(255 : Byte), (255 : Byte)] = 65535) ∧
    (65536 ≤ (encode m).length →
      Connection.sendMsg encode c m = (c, false) ∧
      (Connection.sendMsg encode c m).1.written = c.written ∧
      (Connection.sendMsg encode c m).1.core.getBytesSent.1 = c.core.getBytesSent.1) := by
  constructor
  · intro hopen hlen
    refine ⟨?_, by decide⟩
    simp only [Connection.sendMsg, hopen, encodeHeader, hlen, maxBody, Bool.false_eq_true,
      if_false, le_refl, if_true]
    rfl
  · intro hlen
    have h : Connection.sendMsg encode c m = (c, false) := by
      unfold Connection.sendMsg encodeHeader maxBody
      by_cases hc : c.closed = true
      · simp [hc]
      · have hn : ¬ (encode m).length ≤ 65535 := by omega
        simp [hc, hn]
    rw [h]
    exact ⟨rfl, rfl, rfl⟩

/-- C5. `getBytesSent()` and `getBytesReceived()` are pure accessors: for every
connection object they return exactly the stored `mBytesSent` and
`mBytesReceived`, and the object after the call is the object before it
(both counters and the pending header `mIncomingMsgHeader` unchanged). -/
theorem accessors_pure (c : ClientConnection) :
    c.getBytesSent.1 = c.mBytesSent ∧ c.getBytesReceived.1 = c.mBytesReceived ∧
    c.getBytesSent.2 = c ∧ c.getBytesReceived.2 = c ∧
    c.getBytesSent.2.mBytesSent = c.mBytesSent ∧
    c.getBytesSent.2.mBytesReceived = c.mBytesReceived ∧
    c.getBytesSent.2.mIncomingMsgHeader = c.mIncomingMsgHeader ∧
    c.getBytesReceived.2.mBytesSent = c.mBytesSent ∧
    c.getBytesReceived.2.mBytesReceived = c.mBytesReceived ∧
    c.getBytesReceived.2.mIncomingMsgHeader = c.mIncomingMsgHeader :=
  ⟨rfl, rfl, rfl, rfl, rfl, rfl, rfl, rfl, rfl, rfl⟩

theorem U64_eq : U64 = 18446744073709551616 := by decide

theorem deliver_ok {M : Type} (decode : List Byte → Option M) (bodies : List (List Byte))
    (h : ∀ b ∈ bodies, (decode b).isSome = true) : (deliver decode bodies).2 = true := by
  induction bodies with
  | nil => rfl
  | cons b rest ih =>
    have hb := h b (List.mem_cons_self _ _)
    cases hd : decode b with
    | none => rw [hd] at hb; simp at hb
    | some m =>
      simp only [deliver, hd]
      exact ih (fun x hx => h x (List.mem_cons_of_mem _ hx))

/-- State after a run of `handleReadyRead` in which every reassembled body
decodes: the connection stays open and `mBytesReceived` has grown by the
number of raw bytes delivered. -/
theorem Connection.receiveAll_ok {M : Type} (decode : List Byte → Option M)
    (chunks : List (List Byte)) :
    ∀ (c : Connection), c.closed = false → c.core.mBytesReceived < U64 →
      (∀ b ∈ (Reassembler.feed c.reassembler chunks.flatten).2, (decode b).isSome = true) →
      (Connection.receiveAll decode c chunks).1.closed = false ∧
      (Connection.receiveAll decode c chunks).1.core.mBytesReceived
        = (c.core.mBytesReceived + chunks.flatten.length) % U64 ∧
      (Connection.receiveAll decode c chunks).1.core.mBytesSent = c.core.mBytesSent := by
  induction chunks with
  | nil =>
    intro c hc hr _
    refine ⟨hc, ?_, rfl⟩
    simp only [Connection.receiveAll, List.flatten_nil, List.length_nil, Nat.add_zero]
    exact (Nat.mod_eq_of_lt hr).symm
  | cons ch rest ih =>
    intro c hc hr hdec
    simp only [List.flatten_cons] at hdec
    rw [Reassembler.feed_append] at hdec
    simp only [List.mem_append] at hdec
    have hok : (deliver decode (Reassembler.feed c.reassembler ch).2).2 = true :=
      deliver_ok decode _ (fun b hb => hdec b (Or.inl hb))
    have hstep : Connection.handleReadyRead decode c ch =
        ({ core := { mIncomingMsgHeader := (Reassembler.feed c.reassembler ch).1.expectedBodyLength,
                     mBytesSent := c.core.mBytesSent,
                     mBytesReceived := (c.core.mBytesReceived + ch.length) % U64 },
           headerBuf := (Reassembler.feed c.reassembler ch).1.headerBuf,
           bodyBuf := (Reassembler.feed c.reassembler ch).1.bodyBuf,
           closed := false, written := c.written },
         (deliver decode (Reassembler.feed c.reassembler ch).2).1) := by
      simp [Connection.handleReadyRead, hc, hok]
    rw [Connection.receiveAll, hstep]
    simp only
    have hlt : (c.core.mBytesReceived + ch.length) % U64 < U64 :=
      Nat.mod_lt _ (by rw [U64_eq]; decide)
    obtain ⟨h1, h2, h3⟩ := ih
      { core := { mIncomingMsgHeader := (Reassembler.feed c.reassembler ch).1.expectedBodyLength,
                  mBytesSent := c.core.mBytesSent,
                  mBytesReceived := (c.core.mBytesReceived + ch.length) % U64 },
        headerBuf := (Reassembler.feed c.reassembler ch).1.headerBuf,
        bodyBuf := (Reassembler.feed c.reassembler ch).1.bodyBuf,
        closed := false, written := c.written } rfl hlt (fun b hb => hdec b (Or.inr hb))
    refine ⟨h1, ?_, h3⟩
    rw [h2]
    simp only [List.flatten_cons, List.length_append]
    rw [U64_eq]
    omega

theorem Connection.sendMsg_ok {M : Type} (encode : M → List Byte) (c : Connection) (m : M)
    (hc : c.closed = false) (hlen : (encode m).length ≤ maxBody) :
    Connection.sendMsg encode c m =
      ({ core := { mIncomingMsgHeader := c.core.mIncomingMsgHeader,
                   mBytesSent := (c.core.mBytesSent + (frameBytes (encode m)).length) % U64,
                   mBytesReceived := c.core.mBytesReceived },
         headerBuf := c.headerBuf, bodyBuf := c.bodyBuf, closed := false,
         written := c.written ++ frameBytes (encode m) }, true) := by
  simp only [Connection.sendMsg, hc, encodeHeader, hlen, Bool.false_eq_true, if_false, if_true,
    frameBytes, List.length_cons, List.length_nil]
  simp only [List.cons_append, List.nil_append, Prod.mk.injEq, and_true]
  congr 3
  omega

/-- State after a run of `sendMsg` on an open connection with admissible
messages: every call succeeds, the transport has received the frames in
order, and `mBytesSent` has grown by the number of bytes written. -/
theorem Connection.sendAll_ok {M : Type} (encode : M → List Byte) (msgs : List M) :
    ∀ (c : Connection), c.closed = false → c.core.mBytesSent < U64 →
      (∀ m ∈ msgs, (encode m).length ≤ maxBody) →
      (Connection.sendAll encode c msgs).2 = msgs.map (fun _ => true) ∧
      (Connection.sendAll encode c msgs).1.written = c.written ++ wire (msgs.map encode) ∧
      (Connection.sendAll encode c msgs).1.core.mBytesSent
        = (c.core.mBytesSent + (wire (msgs.map encode)).length) % U64 ∧
      (Connection.sendAll encode c msgs).1.core.mBytesReceived = c.core.mBytesReceived := by
  induction msgs with
  | nil =>
    intro c _ hs _
    refine ⟨rfl, ?_, ?_, rfl⟩
    · simp only [Connection.sendAll, List.map_nil, wire, List.append_nil]
    · simp only [Connection.sendAll, List.map_nil, wire, List.length_nil, Nat.add_zero]
      exact (Nat.mod_eq_of_lt hs).symm
  | cons m rest ih =>
    intro c hc hs hlen
    have hm := hlen m (List.mem_cons_self _ _)
    rw [Connection.sendAll, Connection.sendMsg_ok encode c m hc hm]
    simp only
    have hlt : (c.core.mBytesSent + (frameBytes (encode m)).length) % U64 < U64 :=
      Nat.mod_lt _ (by rw [U64_eq]; decide)
    obtain ⟨h1, h2, h3, h4⟩ := ih
      { core := { mIncomingMsgHeader := c.core.mIncomingMsgHeader,
                  mBytesSent := (c.core.mBytesSent + (frameBytes (encode m)).length) % U64,
                  mBytesReceived := c.core.mBytesReceived },
        headerBuf := c.headerBuf, bodyBuf := c.bodyBuf, closed := false,
        written := c.written ++ frameBytes (encode m) }
      rfl hlt (fun x hx => hlen x (List.mem_cons_of_mem _ hx))
    refine ⟨?_, ?_, ?_, h4⟩
    · rw [h1]; rfl
    · rw [h2]; simp [wire]
    · rw [h3]
      simp only [List.map_cons, wire, List.length_append]
      rw [U64_eq]
      omega

theorem wire_append (xs ys : List (List Byte)) : wire (xs ++ ys) = wire xs ++ wire ys := by
  induction xs with
  | nil => rfl
  | cons x xs ih => simp only [List.cons_append, wire, List.append_eq, ih, List.append_assoc]

theorem wire_length (bodies : List (List Byte)) :
    (wire bodies).length = (bodies.map (fun b => 2 + b.length)).sum := by
  induction bodies with
  | nil => rfl
  | cons b rest ih =>
    simp only [wire, frameBytes, List.length_append, List.length_cons, ih, List.map_cons,
      List.sum_cons]
    omega

theorem wire_take_le {M : Type} (encode : M → List Byte) (msgs : List M) (i j : Nat)
    (hij : i ≤ j) :
    (wire ((msgs.take i).map encode)).length ≤ (wire ((msgs.take j).map encode)).length ∧
    (wire ((msgs.take j).map encode)).length ≤ (wire (msgs.map encode)).length := by
  have key : ∀ (l : List M) (k : Nat),
      (wire ((l.take k).map encode)).length ≤ (wire (l.map encode)).length := by
    intro l k
    have h := congrArg (fun x => (wire (x.map encode)).length) (List.take_append_drop k l)
    simp only [List.map_append, wire_append, List.length_append] at h
    omega
  refine ⟨?_, key msgs j⟩
  have h := key (msgs.take j) i
  rw [List.take_take, Nat.min_eq_left hij] at h
  exact h

theorem flatten_take_le (chunks : List (List Byte)) (i j : Nat) (hij : i ≤ j) :
    (chunks.take i).flatten.length ≤ (chunks.take j).flatten.length ∧
    (chunks.take j).flatten.length ≤ chunks.flatten.length := by
  have key : ∀ (l : List (List Byte)) (k : Nat), (l.take k).flatten.length ≤ l.flatten.length := by
    intro l k
    have h := congrArg (fun x => (List.flatten x).length) (List.take_append_drop k l)
    simp only [List.flatten_append, List.length_append] at h
    omega
  refine ⟨?_, key chunks j⟩
  have h := key (chunks.take j) i
  rw [List.take_take, Nat.min_eq_left hij] at h
  exact h

/-- Counter of the receiver after the first `i` chunks of a chunked delivery of
whole frames whose bodies all decode. -/
theorem Connection.receiveAll_take_counter {M : Type} (decode : List Byte → Option M)
    (bodies : List (List Byte)) (chunks : List (List Byte)) (i : Nat)
    (hlen : ∀ b ∈ bodies, b.length ≤ maxBody)
    (hdec : ∀ b ∈ bodies, (decode b).isSome = true)
    (hcut : chunks.flatten = wire bodies)
    (hB : (wire bodies).length < U64) :
    (Connection.receiveAll decode Connection.fresh (chunks.take i)).1.core.mBytesReceived
      = (chunks.take i).flatten.length := by
  have hsplit : (chunks.take i).flatten ++ (chunks.drop i).flatten = wire bodies := by
    rw [← List.flatten_append, List.take_append_drop, hcut]
  have hw := (Reassembler.feed_wire bodies Connection.fresh.reassembler rfl rfl hlen).1
  rw [← hsplit, Reassembler.feed_append] at hw
  simp only at hw
  have hmem : ∀ b ∈ (Reassembler.feed Connection.fresh.reassembler (chunks.take i).flatten).2,
      (decode b).isSome = true := by
    intro b hb
    apply hdec
    rw [← hw]
    exact List.mem_append_left _ hb
  have h0 : Connection.fresh.core.mBytesReceived < U64 := by rw [U64_eq]; decide
  have h := (Connection.receiveAll_ok decode (chunks.take i) Connection.fresh rfl h0 hmem).2.1
  rw [h]
  have hle := (flatten_take_le chunks i i (le_refl _)).2
  rw [hcut] at hle
  have : Connection.fresh.core.mBytesReceived = 0 := rfl
  rw [this, Nat.zero_add]
  exact Nat.mod_eq_of_lt (lt_of_le_of_lt hle hB)

/-- Counter of the sender after the first `i` messages of a run of admissible
sends from a fresh connection. -/
theorem Connection.sendAll_take_counter {M : Type} (encode : M → List Byte)
    (msgs : List M) (i : Nat)
    (hlen : ∀ m ∈ msgs, (encode m).length ≤ maxBody)
    (hB : (wire (msgs.map encode)).length < U64) :
    (Connection.sendAll encode Connection.fresh (msgs.take i)).2
      = (msgs.take i).map (fun _ => true) ∧
    (Connection.sendAll encode Connection.fresh (msgs.take i)).1.written
      = wire ((msgs.take i).map encode) ∧
    (Connection.sendAll encode Connection.fresh (msgs.take i)).1.core.mBytesSent
      = (wire ((msgs.take i).map encode)).length ∧
    (Connection.sendAll encode Connection.fresh (msgs.take i)).1.core.mBytesReceived = 0 := by
  have h0 : Connection.fresh.core.mBytesSent < U64 := by rw [U64_eq]; decide
  have hlen2 : ∀ m ∈ msgs.take i, (encode m).length ≤ maxBody :=
    fun m hm => hlen m (List.mem_of_mem_take hm)
  obtain ⟨h1, h2, h3, h4⟩ := Connection.sendAll_ok encode (msgs.take i) Connection.fresh rfl h0 hlen2
  refine ⟨h1, ?_, ?_, h4⟩
  · rw [h2]; rfl
  · rw [h3]
    have hle := (wire_take_le encode msgs i i (le_refl _)).2
    have : Connection.fresh.core.mBytesSent = 0 := rfl
    rw [this, Nat.zero_add]
    exact Nat.mod_eq_of_lt (lt_of_le_of_lt hle hB)

theorem Connection.handleReadyRead_bytesSent {M : Type} (decode : List Byte → Option M)
    (c : Connection) (ch : List Byte) :
    (Connection.handleReadyRead decode c ch).1.core.mBytesSent = c.core.mBytesSent := by
  unfold Connection.handleReadyRead
  split
  · rfl
  · simp only
    split <;> rfl

theorem Connection.receiveAll_bytesSent {M : Type} (decode : List Byte → Option M)
    (chunks : List (List Byte)) :
    ∀ (c : Connection),
      (Connection.receiveAll decode c chunks).1.core.mBytesSent = c.core.mBytesSent := by
  induction chunks with
  | nil => intro c; rfl
  | cons ch rest ih =>
    intro c
    rw [Connection.receiveAll]
    simp only
    rw [ih, Connection.handleReadyRead_bytesSent]

/-- One event, whatever its outcome, moves each counter up by at most the bytes
of the event and never down, as long as the counter does not leave the range
of `uint64_t`. -/
theorem Connection.step_counters {M : Type} (encode : M → List Byte)
    (decode : List Byte → Option M) (c : Connection) (op : Op M)
    (hs : c.core.mBytesSent + Op.bytes encode op < U64)
    (hr : c.core.mBytesReceived + Op.bytes encode op < U64) :
    c.core.mBytesSent ≤ (Connection.step encode decode c op).core.mBytesSent ∧
    (Connection.step encode decode c op).core.mBytesSent
      ≤ c.core.mBytesSent + Op.bytes encode op ∧
    c.core.mBytesReceived ≤ (Connection.step encode decode c op).core.mBytesReceived ∧
    (Connection.step encode decode c op).core.mBytesReceived
      ≤ c.core.mBytesReceived + Op.bytes encode op := by
  cases op with
  | send m =>
    simp only [Op.bytes] at hs hr
    simp only [Connection.step, Connection.sendMsg, Op.bytes, encodeHeader]
    by_cases hc : c.closed = true
    · simp only [hc, if_true]; omega
    · simp only [hc, Bool.false_eq_true, if_false]
      by_cases hl : (encode m).length ≤ maxBody
      · simp only [hl, if_true, List.length_cons, List.length_nil]
        have h2 : (c.core.mBytesSent + (0 + 1 + 1 + (encode m).length)) % U64
            = c.core.mBytesSent + (2 + (encode m).length) := by
          rw [Nat.mod_eq_of_lt (by omega)]
        rw [h2]; omega
      · simp only [hl, if_false]; omega
  | ready chunk =>
    simp only [Op.bytes] at hs hr
    simp only [Connection.step, Connection.handleReadyRead, Op.bytes]
    by_cases hc : c.closed = true
    · simp only [hc, if_true]; omega
    · simp only [hc, Bool.false_eq_true, if_false]
      have h2 : (c.core.mBytesReceived + chunk.length) % U64
          = c.core.mBytesReceived + chunk.length := Nat.mod_eq_of_lt hr
      split <;> (simp only [h2]; omega)

/-- Along any sequence of events each counter only grows, by at most the
traffic of the sequence. -/
theorem Connection.run_counters {M : Type} (encode : M → List Byte)
    (decode : List Byte → Option M) (ops : List (Op M)) :
    ∀ (c : Connection), c.core.mBytesSent + traffic encode ops < U64 →
      c.core.mBytesReceived + traffic encode ops < U64 →
      c.core.mBytesSent ≤ (Connection.run encode decode c ops).core.mBytesSent ∧
      (Connection.run encode decode c ops).core.mBytesSent
        ≤ c.core.mBytesSent + traffic encode ops ∧
      c.core.mBytesReceived ≤ (Connection.run encode decode c ops).core.mBytesReceived ∧
      (Connection.run encode decode c ops).core.mBytesReceived
        ≤ c.core.mBytesReceived + traffic encode ops := by
  induction ops with
  | nil =>
    intro c _ _
    simp only [Connection.run, List.foldl_nil, traffic, List.map_nil, List.sum_nil]
    omega
  | cons op rest ih =>
    intro c hs hr
    simp only [traffic, List.map_cons, List.sum_cons] at hs hr
    have hrest : traffic encode rest = (rest.map (Op.bytes encode)).sum := rfl
    obtain ⟨a1, a2, a3, a4⟩ := Connection.step_counters encode decode c op (by omega) (by omega)
    obtain ⟨b1, b2, b3, b4⟩ := ih (Connection.step encode decode c op)
      (by rw [hrest]; omega) (by rw [hrest]; omega)
    simp only [Connection.run, List.foldl_cons, traffic, List.map_cons, List.sum_cons]
    simp only [Connection.run, traffic] at b1 b2 b3 b4
    omega

theorem traffic_append {M : Type} (encode : M → List Byte) (xs ys : List (Op M)) :
    traffic encode (xs ++ ys) = traffic encode xs + traffic encode ys := by
  simp only [traffic, List.map_append, List.sum_append]

/-- Counters after the first `i` events are at most the counters after the
first `j` events, for `i ≤ j`. -/
theorem Connection.run_take_mono {M : Type} (encode : M → List Byte)
    (decode : List Byte → Option M) (c : Connection) (ops : List (Op M))
    (hs : c.core.mBytesSent + traffic encode ops < U64)
    (hr : c.core.mBytesReceived + traffic encode ops < U64) (i j : Nat) (hij : i ≤ j) :
    (Connection.run encode decode c (ops.take i)).core.mBytesSent
      ≤ (Connection.run encode decode c (ops.take j)).core.mBytesSent ∧
    (Connection.run encode decode c (ops.take i)).core.mBytesReceived
      ≤ (Connection.run encode decode c (ops.take j)).core.mBytesReceived := by
  have hsplit : ops.take j = ops.take i ++ (ops.take j).drop i := by
    have h := (List.take_append_drop i (ops.take j)).symm
    rwa [List.take_take, Nat.min_eq_left hij] at h
  have hall : traffic encode ops
      = traffic encode (ops.take i) + traffic encode ((ops.take j).drop i)
        + traffic encode (ops.drop j) := by
    rw [← traffic_append, ← hsplit, ← traffic_append, List.take_append_drop]
  obtain ⟨_, a2, _, a4⟩ := Connection.run_counters encode decode (ops.take i) c
    (by omega) (by omega)
  obtain ⟨b1, _, b3, _⟩ := Connection.run_counters encode decode ((ops.take j).drop i)
    (Connection.run encode decode c (ops.take i)) (by omega) (by omega)
  have hrun : Connection.run encode decode c (ops.take j)
      = Connection.run encode decode (Connection.run encode decode c (ops.take i))
          ((ops.take j).drop i) := by
    conv_lhs => rw [hsplit]
    simp only [Connection.run, List.foldl_append]
  rw [hrun]
  exact ⟨b1, b3⟩

/-- C4. Counter accuracy.  Starting from fresh connections, let `msgs` be sent
with `sendMsg` (each encoded body at most 65535 bytes, the frames totalling
`B` bytes, 2 header bytes plus the body bytes each, with `B` below the range
2^64 of the counters), and let the peer receive the same bytes, cut into
chunks in any way, through `handleReadyRead` (every sent body decodes).  Then
every send succeeds, the transport carries exactly the frames,
`getBytesSent()` is `B` on the sender and `getBytesReceived()` is `B` on the
peer, and along both runs neither counter decreases.  Moreover neither counter
ever decreases or is reset: for every connection state (open or closed, at a
frame boundary or inside a frame) and every event, whatever its outcome (a
send that succeeds or is refused, a chunk that is reassembled, ignored by a
closed connection or ends in a fatal decode failure), both counters after the
event are at least what they were before; and along every sequence of such
events the counters after the first `i` events are at most the counters after
the first `j` events for `i ≤ j` (the counters staying within the range of
`uint64_t`). -/
theorem counter_accuracy {M : Type} (encode : M → List Byte) (decode : List Byte → Option M)
    (msgs : List M) (chunks : List (List Byte))
    (hlen : ∀ m ∈ msgs, (encode m).length ≤ maxBody)
    (hdec : ∀ m ∈ msgs, (decode (encode m)).isSome = true)
    (hcut : chunks.flatten = wire (msgs.map encode))
    (hB : (wire (msgs.map encode)).length < U64) :
    (wire (msgs.map encode)).length = (msgs.map (fun m => 2 + (encode m).length)).sum ∧
    (Connection.sendAll encode Connection.fresh msgs).2 = msgs.map (fun _ => true) ∧
    (Connection.sendAll encode Connection.fresh msgs).1.written = wire (msgs.map encode) ∧
    (Connection.sendAll encode Connection.fresh msgs).1.core.getBytesSent.1
      = (wire (msgs.map encode)).length ∧
    (Connection.receiveAll decode Connection.fresh chunks).1.core.getBytesReceived.1
      = (wire (msgs.map encode)).length ∧
    (∀ i j : Nat, i ≤ j →
      (Connection.sendAll encode Connection.fresh (msgs.take i)).1.core.getBytesSent.1
        ≤ (Connection.sendAll encode Connection.fresh (msgs.take j)).1.core.getBytesSent.1 ∧
      (Connection.sendAll encode Connection.fresh (msgs.take i)).1.core.getBytesReceived.1
        ≤ (Connection.sendAll encode Connection.fresh (msgs.take j)).1.core.getBytesReceived.1) ∧
    (∀ i j : Nat, i ≤ j →
      (Connection.receiveAll decode Connection.fresh (chunks.take i)).1.core.getBytesReceived.1
        ≤ (Connection.receiveAll decode Connection.fresh (chunks.take j)).1.core.getBytesReceived.1 ∧
      (Connection.receiveAll decode Connection.fresh (chunks.take i)).1.core.getBytesSent.1
        ≤ (Connection.receiveAll decode Connection.fresh (chunks.take j)).1.core.getBytesSent.1) ∧
    (∀ (c : Connection) (op : Op M),
      c.core.mBytesSent + Op.bytes encode op < U64 →
      c.core.mBytesReceived + Op.bytes encode op < U64 →
      c.core.getBytesSent.1 ≤ (Connection.step encode decode c op).core.getBytesSent.1 ∧
      c.core.getBytesReceived.1
        ≤ (Connection.step encode decode c op).core.getBytesReceived.1) ∧
    (∀ (c : Connection) (ops : List (Op M)),
      c.core.mBytesSent + traffic encode ops < U64 →
      c.core.mBytesReceived + traffic encode ops < U64 →
      ∀ i j : Nat, i ≤ j →
        (Connection.run encode decode c (ops.take i)).core.getBytesSent.1
          ≤ (Connection.run encode decode c (ops.take j)).core.getBytesSent.1 ∧
        (Connection.run encode decode c (ops.take i)).core.getBytesReceived.1
          ≤ (Connection.run encode decode c (ops.take j)).core.getBytesReceived.1) := by
  have hlenB : ∀ b ∈ msgs.map encode, b.length ≤ maxBody := by
    intro b hb
    obtain ⟨m, hm, rfl⟩ := List.mem_map.mp hb
    exact hlen m hm
  have hdecB : ∀ b ∈ msgs.map encode, (decode b).isSome = true := by
    intro b hb
    obtain ⟨m, hm, rfl⟩ := List.mem_map.mp hb
    exact hdec m hm
  have hsend := fun i => Connection.sendAll_take_counter encode msgs i hlen hB
  have hrecv := fun i =>
    Connection.receiveAll_take_counter decode (msgs.map encode) chunks i hlenB hdecB hcut hB
  have hfullS := hsend msgs.length
  have hfullR := hrecv chunks.length
  rw [List.take_length] at hfullS hfullR
  refine ⟨?_, hfullS.1, hfullS.2.1, hfullS.2.2.1, ?_, ?_, ?_,
    fun c op hs hr =>
      ⟨(Connection.step_counters encode decode c op hs hr).1,
       (Connection.step_counters encode decode c op hs hr).2.2.1⟩,
    fun c ops hs hr i j hij => Connection.run_take_mono encode decode c ops hs hr i j hij⟩
  · rw [wire_length, List.map_map]; rfl
  · show (Connection.receiveAll decode Connection.fresh chunks).1.core.mBytesReceived = _
    rw [hfullR, hcut]
  · intro i j hij
    constructor
    · show (Connection.sendAll encode Connection.fresh (msgs.take i)).1.core.mBytesSent
        ≤ (Connection.sendAll encode Connection.fresh (msgs.take j)).1.core.mBytesSent
      rw [(hsend i).2.2.1, (hsend j).2.2.1]
      exact (wire_take_le encode msgs i j hij).1
    · show (Connection.sendAll encode Connection.fresh (msgs.take i)).1.core.mBytesReceived
        ≤ (Connection.sendAll encode Connection.fresh (msgs.take j)).1.core.mBytesReceived
      rw [(hsend i).2.2.2, (hsend j).2.2.2]
  · intro i j hij
    constructor
    · show (Connection.receiveAll decode Connection.fresh (chunks.take i)).1.core.mBytesReceived
        ≤ (Connection.receiveAll decode Connection.fresh (chunks.take j)).1.core.mBytesReceived
      rw [hrecv i, hrecv j]
      exact (flatten_take_le chunks i j hij).1
    · show (Connection.receiveAll decode Connection.fresh (chunks.take i)).1.core.mBytesSent
        ≤ (Connection.receiveAll decode Connection.fresh (chunks.take j)).1.core.mBytesSent
      rw [Connection.receiveAll_bytesSent, Connection.receiveAll_bytesSent]

/-! ### CommanderPane: the draft pack queue -/

theorem addPackWidgets_some (t : DraftTimerWidget) (n : Nat) :
    ∀ (layout : QBoxLayout),
      ∃ l, addPackWidgets (some t) n layout = some l ∧ l.length = layout.length + n := by
  induction n with
  | zero => intro layout; exact ⟨layout, rfl, rfl⟩
  | succ n ih =>
    intro layout
    obtain ⟨l, h1, h2⟩ := ih (layout ++ [{ scalingHeight := t.height }])
    refine ⟨l, ?_, ?_⟩
    · simp only [addPackWidgets, h1]
    · rw [h2]; simp only [List.length_append, List.length_cons, List.length_nil]; omega

theorem takePackWidgets_some (n : Nat) :
    ∀ (layout : QBoxLayout), n ≤ layout.length →
      ∃ l, takePackWidgets n layout = some l ∧ l.length = layout.length - n := by
  induction n with
  | zero => intro layout _; exact ⟨layout, rfl, rfl⟩
  | succ n ih =>
    intro layout hn
    cases layout with
    | nil => simp at hn
    | cons x rest =>
      simp only [List.length_cons] at hn
      obtain ⟨l, h1, h2⟩ := ih rest (by omega)
      refine ⟨l, ?_, ?_⟩
      · simp only [takePackWidgets, h1]
      · rw [h2]; simp only [List.length_cons]; omega

/-- C6. For every `CommanderPane` that has a draft zone (the draft pack queue
layout and the draft timer widget exist) and for every integer `count`,
`setDraftQueuedPacks(count)` runs without dereferencing a null pointer and
leaves `max(count, 0)` pack widgets in the draft pack queue, whatever the
number was before, the other members being untouched; for a pane without a
draft zone (`mDraftPackQueueLayout` null) the call changes nothing.
`qtutils::clearLayout`, whose code is not among the sources, is assumed to
leave the layout empty. -/
theorem setDraftQueuedPacks_count (clearLayout : QBoxLayout → QBoxLayout)
    (hclear : ∀ l, clearLayout l = []) (p : CommanderPane) (count : Int) :
    (∀ (layout : QBoxLayout) (timer : DraftTimerWidget),
      p.mDraftPackQueueLayout = some layout → p.mDraftTimerWidget = some timer →
      ∃ (p' : CommanderPane) (l' : QBoxLayout),
        p.setDraftQueuedPacks clearLayout count = some p' ∧
        p' = { p with mDraftPackQueueLayout := some l' } ∧
        p'.draftQueuedPacks = max count 0) ∧
    (p.mDraftPackQueueLayout = none → p.setDraftQueuedPacks clearLayout count = some p) := by
  constructor
  · intro layout timer hl ht
    unfold CommanderPane.setDraftQueuedPacks
    simp only [hl, ht]
    by_cases h0 : count ≤ 0
    · refine ⟨_, [], ?_, rfl, ?_⟩
      · simp only [h0, if_true, hclear]
      · simp only [CommanderPane.draftQueuedPacks, List.length_nil]
        omega
    · simp only [h0, if_false]
      by_cases h1 : count > (layout.length : Int)
      · simp only [h1, if_true]
        obtain ⟨l, hl1, hl2⟩ := addPackWidgets_some timer (count - (layout.length : Int)).toNat layout
        refine ⟨_, l, ?_, rfl, ?_⟩
        · simp only [hl1, Option.map_some']
        · simp only [CommanderPane.draftQueuedPacks, hl2]
          omega
      · simp only [h1, if_false]
        obtain ⟨l, hl1, hl2⟩ := takePackWidgets_some ((layout.length : Int) - count).toNat layout
          (by omega)
        refine ⟨_, l, ?_, rfl, ?_⟩
        · simp only [hl1, Option.map_some']
        · simp only [CommanderPane.draftQueuedPacks, hl2]
          omega
  · intro hnone
    simp only [CommanderPane.setDraftQueuedPacks, hnone]

/-! ### CommanderPane: the constructor -/

theorem intMapAssign_tabEntries (z : CardZoneType) (zs : List CardZoneType) :
    ∀ (k : Nat), intMapAssign (((k + zs.length : Nat)) : Int) z (tabEntries k zs)
      = tabEntries k (zs ++ [z]) := by
  induction zs with
  | nil => intro k; simp [intMapAssign, tabEntries]
  | cons z0 zs ih =>
    intro k
    have h1 : ¬ (((k + (z0 :: zs).length : Nat)) : Int) < (k : Int) := by
      simp only [List.length_cons]; omega
    have h2 : ¬ (((k + (z0 :: zs).length : Nat)) : Int) = (k : Int) := by
      simp only [List.length_cons]; omega
    simp only [tabEntries, List.cons_append, intMapAssign, h1, h2, if_false, List.append_eq]
    have h3 : k + (z0 :: zs).length = (k + 1) + zs.length := by
      simp only [List.length_cons]; omega
    rw [h3, ih (k + 1)]

theorem CommanderPane.zoneStep_spec (env : Env) (p : CommanderPane) (z : CardZoneType)
    (hp : p.TabsMatch) :
    (CommanderPane.zoneStep env p z).TabsMatch ∧
    (CommanderPane.zoneStep env p z).mCardViewerTabWidget.pages
      = p.mCardViewerTabWidget.pages ++ [TabPage.mk z] ∧
    (CommanderPane.zoneStep env p z).mStackedWidget.pages
      = p.mStackedWidget.pages ++ [stackPageFor z] := by
  obtain ⟨h1, h2, h3, h4⟩ := hp
  have hmap : intMapAssign (p.mCardViewerTabWidget.pages.length : Int) z p.mTabIndexToCardZoneMap
      = tabEntries 0 ((p.mCardViewerTabWidget.pages ++ [TabPage.mk z]).map TabPage.cardZone) := by
    have := intMapAssign_tabEntries z (p.mCardViewerTabWidget.pages.map TabPage.cardZone) 0
    simp only [List.length_map, Nat.zero_add] at this
    rw [h2, this]
    simp
  unfold CommanderPane.zoneStep stackPageFor
  by_cases hA : z = CARD_ZONE_MAIN ∨ z = CARD_ZONE_SIDEBOARD
  · simp only [hA, if_true]
    refine ⟨⟨?_, ?_, ?_, ?_⟩, rfl, rfl⟩
    · simp [QTabWidget.addTab, QStackedWidget.addWidget, h1]
    · exact hmap
    · simp [QTabWidget.addTab, h3]
    · simp [QStackedWidget.addWidget, h4]
  · simp only [hA, if_false]
    by_cases hB : z = CARD_ZONE_DRAFT
    · simp only [hB, if_true]
      refine ⟨⟨?_, ?_, ?_, ?_⟩, rfl, rfl⟩
      · simp [QTabWidget.addTab, QStackedWidget.addWidget, h1]
      · rw [← hB]; exact hmap
      · simp [QTabWidget.addTab, h3]
      · simp [QStackedWidget.addWidget, h4]
    · simp only [hB, if_false]
      refine ⟨⟨?_, ?_, ?_, ?_⟩, rfl, rfl⟩
      · simp [QTabWidget.addTab, QStackedWidget.addWidget, h1]
      · exact hmap
      · simp [QTabWidget.addTab, h3]
      · simp [QStackedWidget.addWidget, h4]

theorem CommanderPane.foldl_zoneStep_spec (env : Env) (zones : List CardZoneType) :
    ∀ (p : CommanderPane), p.TabsMatch →
      (zones.foldl (CommanderPane.zoneStep env) p).TabsMatch ∧
      (zones.foldl (CommanderPane.zoneStep env) p).mCardViewerTabWidget.pages
        = p.mCardViewerTabWidget.pages ++ zones.map TabPage.mk ∧
      (zones.foldl (CommanderPane.zoneStep env) p).mStackedWidget.pages
        = p.mStackedWidget.pages ++ zones.map stackPageFor := by
  induction zones with
  | nil => intro p hp; simp [hp]
  | cons z rest ih =>
    intro p hp
    obtain ⟨s1, s2, s3⟩ := CommanderPane.zoneStep_spec env p z hp
    obtain ⟨r1, r2, r3⟩ := ih (CommanderPane.zoneStep env p z) s1
    refine ⟨r1, ?_, ?_⟩
    · simp only [List.foldl_cons, r2, s2, List.map_cons, List.append_assoc, List.singleton_append]
    · simp only [List.foldl_cons, r3, s3, List.map_cons, List.append_assoc, List.singleton_append]

theorem CommanderPane.zoneLoop_spec (env : Env) (zones : List CardZoneType) :
    (CommanderPane.zoneLoop env zones).TabsMatch ∧
    (CommanderPane.zoneLoop env zones).mCardViewerTabWidget.pages = zones.map TabPage.mk ∧
    (CommanderPane.zoneLoop env zones).mStackedWidget.pages = zones.map stackPageFor := by
  have hinit : (CommanderPane.init env).TabsMatch := by
    simp [CommanderPane.TabsMatch, CommanderPane.init, tabEntries]
  obtain ⟨h1, h2, h3⟩ := CommanderPane.foldl_zoneStep_spec env zones (CommanderPane.init env) hinit
  exact ⟨h1, by simpa [CommanderPane.init] using h2, by simpa [CommanderPane.init] using h3⟩

/-- The constructor leaves the pane as the zone loop built it and only sets
`mCurrentCardZone`: to the first zone, or to the undefined entry read from an
empty map. -/
theorem CommanderPane.new_eq (env : Env) (zones : List CardZoneType) :
    CommanderPane.new env zones =
      { CommanderPane.zoneLoop env zones with
        mCurrentCardZone := (match zones with
          | z :: _ => z
          | [] => env.undefEntry.2) } := by
  obtain ⟨⟨_, h2, h3, _⟩, hp, _⟩ := CommanderPane.zoneLoop_spec env zones
  cases zones with
  | nil =>
    simp only [List.map_nil] at hp
    simp only [hp, List.map_nil, tabEntries] at h2
    simp only [CommanderPane.new, h2, CommanderPane.setCurrentTab, QTabWidget.setCurrentIndex, hp,
      List.length_nil]
    have : ¬ (0 ≤ env.undefEntry.1 ∧ env.undefEntry.1 < ((0 : Nat) : Int) ∧
        env.undefEntry.1 ≠ (CommanderPane.zoneLoop env []).mCardViewerTabWidget.currentIndex) := by
      intro h; omega
    simp only [this, if_false]
  | cons z rest =>
    simp only [List.map_cons] at hp
    simp only [hp, List.map_cons, tabEntries] at h2
    simp only [hp, List.isEmpty_cons, Bool.false_eq_true, if_false] at h3
    simp only [CommanderPane.new, h2, CommanderPane.setCurrentTab, QTabWidget.setCurrentIndex, h3]
    simp

theorem intMapIndex_tabEntries (dflt : CardZoneType) (zs : List CardZoneType) :
    ∀ (k i : Nat) (z : CardZoneType), zs[i]? = some z →
      intMapIndex dflt (((k + i : Nat)) : Int) (tabEntries k zs) = z := by
  induction zs with
  | nil => intro k i z h; simp at h
  | cons z0 zs ih =>
    intro k i z h
    cases i with
    | zero =>
      simp only [List.getElem?_cons_zero, Option.some.injEq] at h
      simp [tabEntries, intMapIndex, h]
    | succ i =>
      simp only [List.getElem?_cons_succ] at h
      have hne : ¬ (((k + (i + 1) : Nat)) : Int) = (k : Int) := by omega
      simp only [tabEntries, intMapIndex, hne, if_false]
      have : k + (i + 1) = (k + 1) + i := by omega
      rw [this]
      exact ih (k + 1) i z h

/-- C7. For every non-empty list of card zones, right after construction the
active tab is the first tab (index 0, the tab built for the first zone) and
`getCurrentCardZone()` returns the first zone of the list. -/
theorem constructor_first_tab (env : Env) (zones : List CardZoneType) (hne : zones ≠ []) :
    (CommanderPane.new env zones).mCardViewerTabWidget.currentIndex = 0 ∧
    (CommanderPane.new env zones).mCardViewerTabWidget.pages[0]?
      = some (TabPage.mk (zones.head hne)) ∧
    (CommanderPane.new env zones).getCurrentCardZone = zones.head hne := by
  obtain ⟨⟨_, _, h3, _⟩, hp, _⟩ := CommanderPane.zoneLoop_spec env zones
  rw [CommanderPane.new_eq]
  cases zones with
  | nil => exact absurd rfl hne
  | cons z rest =>
    simp only [List.map_cons] at hp
    simp only [hp, List.isEmpty_cons, Bool.false_eq_true, if_false] at h3
    refine ⟨h3, ?_, rfl⟩
    simp only [hp, List.head_cons, List.getElem?_cons_zero]

/-- C8. Tab indices match stack indices.  For every list of `n` card zones the
constructor adds one tab and one stacked-widget page per list element: after
construction both widgets hold `n` entries and have the same current index,
and for every `i < n`, with `z` the `i`-th zone, tab `i` is the tab built for
`z`, stack page `i` is the page built for `z` (it holds basic-land controls
iff `z` is Main or Sideboard, the draft queue and timer iff `z` is Draft, and
is empty otherwise), and the `currentChanged` handler run for index `i` makes
`z` the current card zone and `i` the current stack index. -/
theorem tabs_match_stack (env : Env) (zones : List CardZoneType) :
    (CommanderPane.new env zones).mCardViewerTabWidget.pages.length = zones.length ∧
    (CommanderPane.new env zones).mStackedWidget.pages.length = zones.length ∧
    (CommanderPane.new env zones).mCardViewerTabWidget.currentIndex
      = (CommanderPane.new env zones).mStackedWidget.currentIndex ∧
    (∀ (i : Nat) (z : CardZoneType), zones[i]? = some z →
      (CommanderPane.new env zones).mCardViewerTabWidget.pages[i]? = some (TabPage.mk z) ∧
      (∃ page : StackPage,
        (CommanderPane.new env zones).mStackedWidget.pages[i]? = some page ∧
        ((∃ z', page = StackPage.basicLandControls z') ↔
          (z = CARD_ZONE_MAIN ∨ z = CARD_ZONE_SIDEBOARD)) ∧
        (page = StackPage.basicLandControls z ↔
          (z = CARD_ZONE_MAIN ∨ z = CARD_ZONE_SIDEBOARD)) ∧
        (page = StackPage.draftControls ↔ z = CARD_ZONE_DRAFT) ∧
        (page = StackPage.empty ↔
          (z ≠ CARD_ZONE_MAIN ∧ z ≠ CARD_ZONE_SIDEBOARD ∧ z ≠ CARD_ZONE_DRAFT))) ∧
      (CommanderPane.onCurrentChanged env (CommanderPane.new env zones) (i : Int)).mCurrentCardZone
        = z ∧
      (CommanderPane.onCurrentChanged env (CommanderPane.new env zones)
        (i : Int)).mStackedWidget.currentIndex = (i : Int)) := by
  obtain ⟨⟨_, h2, h3, h4⟩, hp, hs⟩ := CommanderPane.zoneLoop_spec env zones
  rw [CommanderPane.new_eq]
  simp only
  refine ⟨by rw [hp, List.length_map], by rw [hs, List.length_map], ?_, ?_⟩
  · rw [h3, h4, hp, hs]
    cases zones <;> rfl
  · intro i z hz
    have hi : i < zones.length := by
      rcases Nat.lt_or_ge i zones.length with h | h
      · exact h
      · rw [List.getElem?_eq_none h] at hz; exact absurd hz (by simp)
    refine ⟨by rw [hp, List.getElem?_map, hz]; rfl, ⟨stackPageFor z, ?_, ?_, ?_, ?_, ?_⟩, ?_, ?_⟩
    · rw [hs, List.getElem?_map, hz]; rfl
    · unfold stackPageFor
      by_cases hA : z = CARD_ZONE_MAIN ∨ z = CARD_ZONE_SIDEBOARD
      · simp [hA]
      · by_cases hB : z = CARD_ZONE_DRAFT <;> simp [hA, hB]
    · unfold stackPageFor
      by_cases hA : z = CARD_ZONE_MAIN ∨ z = CARD_ZONE_SIDEBOARD
      · simp [hA]
      · by_cases hB : z = CARD_ZONE_DRAFT <;> simp [hA, hB]
    · unfold stackPageFor
      by_cases hA : z = CARD_ZONE_MAIN ∨ z = CARD_ZONE_SIDEBOARD
      · rcases hA with hA | hA <;> simp [hA]
      · by_cases hB : z = CARD_ZONE_DRAFT <;> simp [hA, hB]
    · unfold stackPageFor
      by_cases hA : z = CARD_ZONE_MAIN ∨ z = CARD_ZONE_SIDEBOARD
      · rcases hA with hA | hA <;> simp [hA]
      · by_cases hB : z = CARD_ZONE_DRAFT
        · simp [hB]
        · have h1 : z ≠ CARD_ZONE_MAIN := fun h => hA (Or.inl h)
          have h2 : z ≠ CARD_ZONE_SIDEBOARD := fun h => hA (Or.inr h)
          simp [hA, hB, h1, h2]
    · simp only [CommanderPane.onCurrentChanged, h2, hp, List.map_map]
      have hz2 : (zones.map (TabPage.cardZone ∘ TabPage.mk))[i]? = some z := by
        rw [List.getElem?_map, hz]; rfl
      have := intMapIndex_tabEntries env.zeroZone _ 0 i z hz2
      simpa using this
    · simp only [CommanderPane.onCurrentChanged, QStackedWidget.setCurrentIndex, hs,
        List.length_map]
      have hc : (0 : Int) ≤ (i : Int) ∧ (i : Int) < (zones.length : Int) := by omega
      simp only [hc, and_self, if_true]

/-! ### CommanderPane: context menus -/

/-- The card context menu outside the draft zone, for a card that is not a
basic land. -/
theorem CommanderPane.cardContextMenu_moves (gBasicLandTypeArray : List BasicLandType)
    (getCardData : BasicLandType → CardDataSharedPtr) (basicInit : BasicLandType)
    (p : CommanderPane) (cardData : CardDataSharedPtr) (cardName : String) (exec : QMenu → Nat)
    (hz : p.mCurrentCardZone ≠ CARD_ZONE_DRAFT)
    (hb : isBasicLandCardData gBasicLandTypeArray getCardData cardData = none) :
    (p.cardContextMenu none cardName).destinations
      = [CARD_ZONE_MAIN, CARD_ZONE_SIDEBOARD, CARD_ZONE_JUNK].filter
          (fun z => z != p.mCurrentCardZone) ∧
    (p.cardContextMenu none cardName).menu.actions.length
      = 2 + (p.cardContextMenu none cardName).destinations.length ∧
    (∀ d ∈ (p.cardContextMenu none cardName).destinations,
      exec (p.cardContextMenu none cardName).menu
          = (p.cardContextMenu none cardName).actionFor d →
      p.handleCardContextMenu gBasicLandTypeArray getCardData basicInit cardData cardName exec
        = [Effect.cardZoneMoveRequest p.mCurrentCardZone cardData d]) ∧
    (exec (p.cardContextMenu none cardName).menu = 0 →
      p.handleCardContextMenu gBasicLandTypeArray getCardData basicInit cardData cardName exec
        = []) := by
  cases hc : p.mCurrentCardZone with
  | CARD_ZONE_DRAFT => exact absurd hc hz
  | CARD_ZONE_MAIN =>
    refine ⟨?_, ?_, ?_, ?_⟩
    · simp [CommanderPane.cardContextMenu, hc, ZoneMenu.destinations, ZoneMenu.actionFor,
        addActionIf, QMenu.addAction, QMenu.addSeparator]
    · simp [CommanderPane.cardContextMenu, hc, ZoneMenu.destinations, ZoneMenu.actionFor,
        addActionIf, QMenu.addAction, QMenu.addSeparator]
    · intro d hd hex
      simp [CommanderPane.cardContextMenu, hc, ZoneMenu.destinations, ZoneMenu.actionFor,
        addActionIf, QMenu.addAction, QMenu.addSeparator] at hd hex
      rcases hd with rfl | rfl <;>
      simp [CommanderPane.handleCardContextMenu, CommanderPane.cardContextMenu, hc, hb,
        ZoneMenu.actionFor, addActionIf, QMenu.addAction, QMenu.addSeparator] at hex ⊢ <;>
      simp [hex]
    · intro hex
      simp [CommanderPane.handleCardContextMenu, hc, hb, hex]
  | CARD_ZONE_SIDEBOARD =>
    refine ⟨?_, ?_, ?_, ?_⟩
    · simp [CommanderPane.cardContextMenu, hc, ZoneMenu.destinations, ZoneMenu.actionFor,
        addActionIf, QMenu.addAction, QMenu.addSeparator]
    · simp [CommanderPane.cardContextMenu, hc, ZoneMenu.destinations, ZoneMenu.actionFor,
        addActionIf, QMenu.addAction, QMenu.addSeparator]
    · intro d hd hex
      simp [CommanderPane.cardContextMenu, hc, ZoneMenu.destinations, ZoneMenu.actionFor,
        addActionIf, QMenu.addAction, QMenu.addSeparator] at hd hex
      rcases hd with rfl | rfl <;>
      simp [CommanderPane.handleCardContextMenu, CommanderPane.cardContextMenu, hc, hb,
        ZoneMenu.actionFor, addActionIf, QMenu.addAction, QMenu.addSeparator] at hex ⊢ <;>
      simp [hex]
    · intro hex
      simp [CommanderPane.handleCardContextMenu, hc, hb, hex]
  | CARD_ZONE_JUNK =>
    refine ⟨?_, ?_, ?_, ?_⟩
    · simp [CommanderPane.cardContextMenu, hc, ZoneMenu.destinations, ZoneMenu.actionFor,
        addActionIf, QMenu.addAction, QMenu.addSeparator]
    · simp [CommanderPane.cardContextMenu, hc, ZoneMenu.destinations, ZoneMenu.actionFor,
        addActionIf, QMenu.addAction, QMenu.addSeparator]
    · intro d hd hex
      simp [CommanderPane.cardContextMenu, hc, ZoneMenu.destinations, ZoneMenu.actionFor,
        addActionIf, QMenu.addAction, QMenu.addSeparator] at hd hex
      rcases hd with rfl | rfl <;>
      simp [CommanderPane.handleCardContextMenu, CommanderPane.cardContextMenu, hc, hb,
        ZoneMenu.actionFor, addActionIf, QMenu.addAction, QMenu.addSeparator] at hex ⊢ <;>
      simp [hex]
    · intro hex
      simp [CommanderPane.handleCardContextMenu, hc, hb, hex]
  | CARD_ZONE_OTHER n =>
    refine ⟨?_, ?_, ?_, ?_⟩
    · simp [CommanderPane.cardContextMenu, hc, ZoneMenu.destinations, ZoneMenu.actionFor,
        addActionIf, QMenu.addAction, QMenu.addSeparator]
    · simp [CommanderPane.cardContextMenu, hc, ZoneMenu.destinations, ZoneMenu.actionFor,
        addActionIf, QMenu.addAction, QMenu.addSeparator]
    · intro d hd hex
      simp [CommanderPane.cardContextMenu, hc, ZoneMenu.destinations, ZoneMenu.actionFor,
        addActionIf, QMenu.addAction, QMenu.addSeparator] at hd hex
      rcases hd with rfl | rfl | rfl <;>
      simp [CommanderPane.handleCardContextMenu, CommanderPane.cardContextMenu, hc, hb,
        ZoneMenu.actionFor, addActionIf, QMenu.addAction, QMenu.addSeparator] at hex ⊢ <;>
      simp [hex]
    · intro hex
      simp [CommanderPane.handleCardContextMenu, hc, hb, hex]

/-- The viewer context menu outside the draft zone. -/
theorem CommanderPane.viewerContextMenu_moves (p : CommanderPane) (exec : QMenu → Nat)
    (hz : p.mCurrentCardZone ≠ CARD_ZONE_DRAFT) :
    p.viewerContextMenu.destinations
      = [CARD_ZONE_MAIN, CARD_ZONE_SIDEBOARD, CARD_ZONE_JUNK].filter
          (fun z => z != p.mCurrentCardZone) ∧
    p.viewerContextMenu.menu.actions.length = p.viewerContextMenu.destinations.length ∧
    (p.handleViewerContextMenu exec).1 = some p.viewerContextMenu.menu ∧
    (∀ d ∈ p.viewerContextMenu.destinations,
      exec p.viewerContextMenu.menu = p.viewerContextMenu.actionFor d →
      (p.handleViewerContextMenu exec).2
        = [Effect.cardZoneMoveAllRequest p.mCurrentCardZone d]) ∧
    (exec p.viewerContextMenu.menu = 0 → (p.handleViewerContextMenu exec).2 = []) := by
  cases hc : p.mCurrentCardZone with
  | CARD_ZONE_DRAFT => exact absurd hc hz
  | CARD_ZONE_MAIN =>
    refine ⟨?_, ?_, ?_, ?_, ?_⟩
    · simp [CommanderPane.viewerContextMenu, hc, ZoneMenu.destinations, ZoneMenu.actionFor,
        addActionIf, QMenu.addAction]
    · simp [CommanderPane.viewerContextMenu, hc, ZoneMenu.destinations, ZoneMenu.actionFor,
        addActionIf, QMenu.addAction]
    · simp [CommanderPane.handleViewerContextMenu, hc]
    · intro d hd hex
      simp [CommanderPane.viewerContextMenu, hc, ZoneMenu.destinations, ZoneMenu.actionFor,
        addActionIf, QMenu.addAction] at hd hex
      rcases hd with rfl | rfl <;>
      simp [CommanderPane.handleViewerContextMenu, CommanderPane.viewerContextMenu, hc,
        ZoneMenu.actionFor, addActionIf, QMenu.addAction] at hex ⊢ <;>
      simp [hex]
    · intro hex
      simp [CommanderPane.handleViewerContextMenu, hc, hex]
  | CARD_ZONE_SIDEBOARD =>
    refine ⟨?_, ?_, ?_, ?_, ?_⟩
    · simp [CommanderPane.viewerContextMenu, hc, ZoneMenu.destinations, ZoneMenu.actionFor,
        addActionIf, QMenu.addAction]
    · simp [CommanderPane.viewerContextMenu, hc, ZoneMenu.destinations, ZoneMenu.actionFor,
        addActionIf, QMenu.addAction]
    · simp [CommanderPane.handleViewerContextMenu, hc]
    · intro d hd hex
      simp [CommanderPane.viewerContextMenu, hc, ZoneMenu.destinations, ZoneMenu.actionFor,
        addActionIf, QMenu.addAction] at hd hex
      rcases hd with rfl | rfl <;>
      simp [CommanderPane.handleViewerContextMenu, CommanderPane.viewerContextMenu, hc,
        ZoneMenu.actionFor, addActionIf, QMenu.addAction] at hex ⊢ <;>
      simp [hex]
    · intro hex
      simp [CommanderPane.handleViewerContextMenu, hc, hex]
  | CARD_ZONE_JUNK =>
    refine ⟨?_, ?_, ?_, ?_, ?_⟩
    · simp [CommanderPane.viewerContextMenu, hc, ZoneMenu.destinations, ZoneMenu.actionFor,
        addActionIf, QMenu.addAction]
    · simp [CommanderPane.viewerContextMenu, hc, ZoneMenu.destinations, ZoneMenu.actionFor,
        addActionIf, QMenu.addAction]
    · simp [CommanderPane.handleViewerContextMenu, hc]
    · intro d hd hex
      simp [CommanderPane.viewerContextMenu, hc, ZoneMenu.destinations, ZoneMenu.actionFor,
        addActionIf, QMenu.addAction] at hd hex
      rcases hd with rfl | rfl <;>
      simp [CommanderPane.handleViewerContextMenu, CommanderPane.viewerContextMenu, hc,
        ZoneMenu.actionFor, addActionIf, QMenu.addAction] at hex ⊢ <;>
      simp [hex]
    · intro hex
      simp [CommanderPane.handleViewerContextMenu, hc, hex]
  | CARD_ZONE_OTHER n =>
    refine ⟨?_, ?_, ?_, ?_, ?_⟩
    · simp [CommanderPane.viewerContextMenu, hc, ZoneMenu.destinations, ZoneMenu.actionFor,
        addActionIf, QMenu.addAction]
    · simp [CommanderPane.viewerContextMenu, hc, ZoneMenu.destinations, ZoneMenu.actionFor,
        addActionIf, QMenu.addAction]
    · simp [CommanderPane.handleViewerContextMenu, hc]
    · intro d hd hex
      simp [CommanderPane.viewerContextMenu, hc, ZoneMenu.destinations, ZoneMenu.actionFor,
        addActionIf, QMenu.addAction] at hd hex
      rcases hd with rfl | rfl | rfl <;>
      simp [CommanderPane.handleViewerContextMenu, CommanderPane.viewerContextMenu, hc,
        ZoneMenu.actionFor, addActionIf, QMenu.addAction] at hex ⊢ <;>
      simp [hex]
    · intro hex
      simp [CommanderPane.handleViewerContextMenu, hc, hex]

/-- Both context menus in the draft zone. -/
theorem CommanderPane.draft_menus (gBasicLandTypeArray : List BasicLandType)
    (getCardData : BasicLandType → CardDataSharedPtr) (basicInit : BasicLandType)
    (p : CommanderPane) (cardData : CardDataSharedPtr) (cardName : String) (exec : QMenu → Nat)
    (hz : p.mCurrentCardZone = CARD_ZONE_DRAFT) :
    (∀ basic : Option BasicLandType,
      (p.cardContextMenu basic cardName).destinations
        = [CARD_ZONE_MAIN, CARD_ZONE_SIDEBOARD, CARD_ZONE_JUNK]) ∧
    (∀ d ∈ [CARD_ZONE_MAIN, CARD_ZONE_SIDEBOARD, CARD_ZONE_JUNK],
      exec (p.cardContextMenu none cardName).menu
          = (p.cardContextMenu none cardName).actionFor d →
      p.handleCardContextMenu gBasicLandTypeArray getCardData basicInit cardData cardName exec
        = [Effect.cardZoneMoveRequest CARD_ZONE_DRAFT cardData d]) ∧
    p.handleViewerContextMenu exec = (none, []) := by
  refine ⟨?_, ?_, ?_⟩
  · intro basic
    simp [CommanderPane.cardContextMenu, hz, ZoneMenu.destinations, ZoneMenu.actionFor,
      QMenu.addAction, QMenu.addSeparator]
  · intro d hd hex
    simp only [List.mem_cons, List.mem_singleton, List.not_mem_nil, or_false] at hd
    rcases hd with rfl | rfl | rfl <;>
    simp [CommanderPane.handleCardContextMenu, CommanderPane.cardContextMenu, hz,
      ZoneMenu.actionFor, QMenu.addAction, QMenu.addSeparator] at hex ⊢ <;>
    simp [hex]
  · simp [CommanderPane.handleViewerContextMenu, hz]

/-- C9. Outside the draft zone, the card context menu (for a card that is not a
basic land) and the viewer context menu offer as move destinations exactly the
zones of Main, Sideboard, Junk other than the current zone, and hold no other
action (the card menu also has its title and a separator); choosing a
destination emits exactly one `cardZoneMoveRequest` (resp.
`cardZoneMoveAllRequest`) with source the current zone and destination the
chosen zone, and dismissing the menu emits nothing.  In the draft zone the card
menu offers all three destinations (each emitting a request from the draft
zone) and the viewer handler shows no menu and emits nothing. -/
theorem context_menu_moves (gBasicLandTypeArray : List BasicLandType)
    (getCardData : BasicLandType → CardDataSharedPtr) (basicInit : BasicLandType)
    (p : CommanderPane) (cardData : CardDataSharedPtr) (cardName : String)
    (exec : QMenu → Nat) :
    (p.mCurrentCardZone ≠ CARD_ZONE_DRAFT →
      isBasicLandCardData gBasicLandTypeArray getCardData cardData = none →
      (p.cardContextMenu none cardName).destinations
        = [CARD_ZONE_MAIN, CARD_ZONE_SIDEBOARD, CARD_ZONE_JUNK].filter
            (fun z => z != p.mCurrentCardZone) ∧
      (p.cardContextMenu none cardName).menu.actions.length
        = 2 + (p.cardContextMenu none cardName).destinations.length ∧
      (∀ d ∈ (p.cardContextMenu none cardName).destinations,
        exec (p.cardContextMenu none cardName).menu
            = (p.cardContextMenu none cardName).actionFor d →
        p.handleCardContextMenu gBasicLandTypeArray getCardData basicInit cardData cardName exec
          = [Effect.cardZoneMoveRequest p.mCurrentCardZone cardData d]) ∧
      (exec (p.cardContextMenu none cardName).menu = 0 →
        p.handleCardContextMenu gBasicLandTypeArray getCardData basicInit cardData cardName exec
          = [])) ∧
    (p.mCurrentCardZone ≠ CARD_ZONE_DRAFT →
      p.viewerContextMenu.destinations
        = [CARD_ZONE_MAIN, CARD_ZONE_SIDEBOARD, CARD_ZONE_JUNK].filter
            (fun z => z != p.mCurrentCardZone) ∧
      p.viewerContextMenu.menu.actions.length = p.viewerContextMenu.destinations.length ∧
      (p.handleViewerContextMenu exec).1 = some p.viewerContextMenu.menu ∧
      (∀ d ∈ p.viewerContextMenu.destinations,
        exec p.viewerContextMenu.menu = p.viewerContextMenu.actionFor d →
        (p.handleViewerContextMenu exec).2
          = [Effect.cardZoneMoveAllRequest p.mCurrentCardZone d]) ∧
      (exec p.viewerContextMenu.menu = 0 → (p.handleViewerContextMenu exec).2 = [])) ∧
    (p.mCurrentCardZone = CARD_ZONE_DRAFT →
      (∀ basic : Option BasicLandType,
        (p.cardContextMenu basic cardName).destinations
          = [CARD_ZONE_MAIN, CARD_ZONE_SIDEBOARD, CARD_ZONE_JUNK]) ∧
      (∀ d ∈ [CARD_ZONE_MAIN, CARD_ZONE_SIDEBOARD, CARD_ZONE_JUNK],
        exec (p.cardContextMenu none cardName).menu
            = (p.cardContextMenu none cardName).actionFor d →
        p.handleCardContextMenu gBasicLandTypeArray getCardData basicInit cardData cardName exec
          = [Effect.cardZoneMoveRequest CARD_ZONE_DRAFT cardData d]) ∧
      p.handleViewerContextMenu exec = (none, [])) :=
  ⟨CommanderPane.cardContextMenu_moves gBasicLandTypeArray getCardData basicInit p cardData
      cardName exec,
   CommanderPane.viewerContextMenu_moves p exec,
   CommanderPane.draft_menus gBasicLandTypeArray getCardData basicInit p cardData cardName exec⟩

/-! ### Instances on concrete inputs -/

/-- Three frames (bodies 1 2, empty, 7) cut into four chunks, the first cut
inside a header: the emissions are the three bodies. -/
theorem chunking_invariance_witness :
    (Connection.receiveAll (fun b => some b) Connection.fresh
      [[0], [2, 1, 2, 0], [0, 0, 1], [7]]).2 = [[1, 2], [], [7]] :=
  (chunking_invariance (fun b => some b) Connection.fresh [[1, 2], [], [7]]
    [[0], [2, 1, 2, 0], [0, 0, 1], [7]] rfl rfl rfl (by decide) (by decide)).2.2
    [[1, 2], [], [7]] rfl

/-- A header `0 0` on a fresh connection: one emission, the empty payload. -/
theorem zero_length_body_witness :
    Connection.handleReadyRead (fun b => some b) Connection.fresh [0, 0] =
      ({ core := { mIncomingMsgHeader := 0, mBytesSent := 0, mBytesReceived := 2 },
         headerBuf := [], bodyBuf := [], closed := false, written := [] }, [[]]) :=
  (zero_length_body (fun b => some b) Connection.fresh [0, 0] 0 0 []
    rfl (by decide) rfl rfl rfl rfl).1

/-- A body of 65535 zero bytes is sent from a fresh connection; one of 65536
is refused and leaves the connection as it was. -/
theorem send_size_boundary_witness :
    (Connection.sendMsg (fun (x : List Byte) => x) Connection.fresh
        (List.replicate 65535 0)).2 = true ∧
    Connection.sendMsg (fun (x : List Byte) => x) Connection.fresh (List.replicate 65536 0)
      = (Connection.fresh, false) :=
  ⟨by rw [((send_size_boundary (fun (x : List Byte) => x) Connection.fresh
        (List.replicate 65535 0)).1 rfl (List.length_replicate _ _)).1],
   ((send_size_boundary (fun (x : List Byte) => x) Connection.fresh
        (List.replicate 65536 0)).2 (Nat.le_of_eq (List.length_replicate _ _).symm)).1⟩

/-- Two messages (bodies 1 2 and empty, 6 wire bytes) sent and received in two
chunks: both counters read 6.  And on a connection whose first chunk ends in a
fatal decode failure and whose next send is therefore refused, the
bytes-received counter after the first event is not above the one after the
second. -/
theorem counter_accuracy_witness :
    (Connection.sendAll (fun (x : List Byte) => x) Connection.fresh
        [[1, 2], []]).1.core.getBytesSent.1 = 6 ∧
    (Connection.receiveAll (fun b => some b) Connection.fresh
        [[0, 2, 1], [2, 0, 0]]).1.core.getBytesReceived.1 = 6 ∧
    (Connection.run (fun (x : List Byte) => x)
        (fun b => if b.length = 1 then none else some b) Connection.fresh
        (List.take 1 [Op.ready [0, 1, 9], Op.send []])).core.getBytesReceived.1
      ≤ (Connection.run (fun (x : List Byte) => x)
        (fun b => if b.length = 1 then none else some b) Connection.fresh
        (List.take 2 [Op.ready [0, 1, 9], Op.send []])).core.getBytesReceived.1 :=
  ⟨(counter_accuracy (fun (x : List Byte) => x) (fun b => some b) [[1, 2], []]
      [[0, 2, 1], [2, 0, 0]] (by decide) (by decide) (by decide) (by decide)).2.2.2.1,
   (counter_accuracy (fun (x : List Byte) => x) (fun b => some b) [[1, 2], []]
      [[0, 2, 1], [2, 0, 0]] (by decide) (by decide) (by decide) (by decide)).2.2.2.2.1,
   ((counter_accuracy (fun (x : List Byte) => x)
      (fun b => if b.length = 1 then none else some b) [] []
      (by decide) (by decide) (by decide) (by decide)).2.2.2.2.2.2.2.2
      Connection.fresh [Op.ready [0, 1, 9], Op.send []] (by decide) (by decide)
      1 2 (by decide)).2⟩

/-- A pane built for Draft and Main: asking for 3 queued packs succeeds and
leaves 3 pack widgets. -/
theorem setDraftQueuedPacks_count_witness :
    ∃ (p' : CommanderPane) (l' : QBoxLayout),
      (CommanderPane.new ⟨(0, CARD_ZONE_DRAFT), CARD_ZONE_DRAFT, 40⟩
        [CARD_ZONE_DRAFT, CARD_ZONE_MAIN]).setDraftQueuedPacks (fun _ => []) 3 = some p' ∧
      p' = { CommanderPane.new ⟨(0, CARD_ZONE_DRAFT), CARD_ZONE_DRAFT, 40⟩
              [CARD_ZONE_DRAFT, CARD_ZONE_MAIN] with mDraftPackQueueLayout := some l' } ∧
      p'.draftQueuedPacks = max 3 0 :=
  (setDraftQueuedPacks_count (fun _ => []) (fun _ => rfl)
    (CommanderPane.new ⟨(0, CARD_ZONE_DRAFT), CARD_ZONE_DRAFT, 40⟩
      [CARD_ZONE_DRAFT, CARD_ZONE_MAIN]) 3).1 [] ⟨40⟩ rfl rfl

/-- A pane built for Main and Draft shows Main first. -/
theorem constructor_first_tab_witness :
    (CommanderPane.new ⟨(0, CARD_ZONE_DRAFT), CARD_ZONE_DRAFT, 40⟩
      [CARD_ZONE_MAIN, CARD_ZONE_DRAFT]).getCurrentCardZone = CARD_ZONE_MAIN :=
  (constructor_first_tab ⟨(0, CARD_ZONE_DRAFT), CARD_ZONE_DRAFT, 40⟩
    [CARD_ZONE_MAIN, CARD_ZONE_DRAFT] (by decide)).2.2

/-- In a pane built for Main, Draft, Junk, tab 1 is the Draft tab. -/
theorem tabs_match_stack_witness :
    (CommanderPane.new ⟨(0, CARD_ZONE_DRAFT), CARD_ZONE_DRAFT, 40⟩
      [CARD_ZONE_MAIN, CARD_ZONE_DRAFT, CARD_ZONE_JUNK]).mCardViewerTabWidget.pages[1]?
      = some (TabPage.mk CARD_ZONE_DRAFT) :=
  ((tabs_match_stack ⟨(0, CARD_ZONE_DRAFT), CARD_ZONE_DRAFT, 40⟩
    [CARD_ZONE_MAIN, CARD_ZONE_DRAFT, CARD_ZONE_JUNK]).2.2.2 1 CARD_ZONE_DRAFT rfl).1

/-- In the Main zone, picking the third action of the card menu (title,
separator, "Move to Sideboard") requests a move from Main to Sideboard. -/
theorem context_menu_moves_witness :
    (CommanderPane.new ⟨(0, CARD_ZONE_DRAFT), CARD_ZONE_DRAFT, 40⟩
      [CARD_ZONE_MAIN]).handleCardContextMenu [] (fun b => b) 0 5 "x" (fun _ => 3)
      = [Effect.cardZoneMoveRequest CARD_ZONE_MAIN 5 CARD_ZONE_SIDEBOARD] :=
  ((context_menu_moves [] (fun b => b) 0
    (CommanderPane.new ⟨(0, CARD_ZONE_DRAFT), CARD_ZONE_DRAFT, 40⟩ [CARD_ZONE_MAIN])
    5 "x" (fun _ => 3)).1 (by decide) rfl).2.2.1 CARD_ZONE_SIDEBOARD (by decide) rfl

end Thicket
